import Mathlib

/-!
# Verification of the flownet library

A shallow embedding of the `flownet` Go package (flow_network.go,
circulation.go, transshipment.go) together with proofs about it.

Go node identifiers are embedded as `Int` (Go `int`); 64-bit capacities and
flows are embedded as unbounded `Int` (the package declares behaviour beyond
the signed 64-bit range as out of scope).  Go maps keyed by `edge` are
embedded as association lists whose update operation keeps keys unique;
Go slices are embedded as lists indexed by `Int` (converted with `toNat`;
the algorithm only ever indexes in range).  Go map iteration order is
unspecified; every place the code iterates over a map the result is
order-independent (sums, deletions, membership tests), so the association
list order is a sound deterministic stand-in.
-/

namespace Flownet

/-- External ID of the source pseudonode (`flownet.Source`). -/
def Source : Int := -2

/-- External ID of the sink pseudonode (`flownet.Sink`). -/
def Sink : Int := -1

/-- Internal ID of the source node (`sourceID`). -/
def sourceID : Int := 0

/-- Internal ID of the sink node (`sinkID`). -/
def sinkID : Int := 1

/-- `math.MaxInt64`. -/
def maxInt64 : Int := 9223372036854775807

/-- `math.MaxInt32`. -/
def maxInt32 : Int := 2147483647

/-- A directed edge between internal node IDs (Go struct `edge`). -/
abbrev GEdge := Int × Int

/-- `edge.reverse()`. -/
def erev (e : GEdge) : GEdge := (e.2, e.1)

/-- Association-list embedding of Go `map[edge]int64`. -/
abbrev EMap := List (GEdge × Int)

/-- Map lookup; absent keys read as `0`, exactly as a Go map does. -/
def mget : EMap → GEdge → Int
  | [], _ => 0
  | (k, v) :: t, e => if k = e then v else mget t e

/-- Key-presence test (`_, ok := m[e]`). -/
def mhas : EMap → GEdge → Bool
  | [], _ => false
  | (k, _) :: t, e => if k = e then true else mhas t e

/-- Map deletion (`delete(m, e)`). -/
def mdel : EMap → GEdge → EMap
  | [], _ => []
  | (k, v) :: t, e => if k = e then mdel t e else (k, v) :: mdel t e

/-- Map update (`m[e] = v`); keeps keys unique by deleting the key first. -/
def mset (m : EMap) (e : GEdge) (v : Int) : EMap := (e, v) :: mdel m e

/-- Key uniqueness of an association list. -/
def keysND (m : EMap) : Prop := (m.map Prod.fst).Nodup

/-- Indexed read from a Go slice of `int64`/`int` (out of range reads 0;
the algorithm never indexes out of range). -/
def iget (l : List Int) (i : Int) : Int := l.getD i.toNat 0

/-- Indexed write to a Go slice. -/
def iset (l : List Int) (i : Int) (v : Int) : List Int := l.set i.toNat v

/-- Read one adjacency set. -/
def aget (a : List (List Int)) (i : Int) : List Int := a.getD i.toNat []

/-- Insert into an adjacency set (`m[v] = struct{}{}`); kept duplicate-free
so that iteration over it matches iteration over the Go set. -/
def insertOnce (xs : List Int) (v : Int) : List Int :=
  if v ∈ xs then xs else xs ++ [v]

/-- `g.adjacencyList[u][v] = struct{}{}`. -/
def adjAdd (a : List (List Int)) (u v : Int) : List (List Int) :=
  a.set u.toNat (insertOnce (aget a u) v)

/-- `delete(g.adjacencyList[u], v)`. -/
def adjDel (a : List (List Int)) (u v : Int) : List (List Int) :=
  a.set u.toNat ((aget a u).erase v)

/-- The Go struct `FlowNetwork`. -/
structure FlowNetwork where
  numNodes : Int
  nodeOrder : List Int
  adjacencyList : List (List Int)
  adjacencyVisitList : List (List Int)
  capacity : EMap
  preflow : EMap
  excess : List Int
  label : List Int
  seen : List Int
  manualSource : Bool
  manualSink : Bool
  deriving Repr, DecidableEq, Inhabited

namespace FlowNetwork

/-- `internalID`. -/
def internalID (externalID : Int) : Int := externalID + 2

/-- The private `addEdge`: record capacity and adjacency. -/
def addEdgeRaw (g : FlowNetwork) (fromID toID : Int) (cap : Int) : FlowNetwork :=
  { g with
    capacity := mset g.capacity (fromID + 2, toID + 2) cap
    adjacencyList := adjAdd g.adjacencyList (fromID + 2) (toID + 2) }

/-- `NewFlowNetwork`. -/
def newFlowNetwork (numNodes : Int) : FlowNetwork :=
  let base : FlowNetwork :=
    { numNodes := numNodes
      nodeOrder := []
      adjacencyList := List.replicate (numNodes.toNat + 2) []
      adjacencyVisitList := []
      capacity := []
      preflow := []
      excess := List.replicate (numNodes.toNat + 2) 0
      label := List.replicate (numNodes.toNat + 2) 0
      seen := List.replicate (numNodes.toNat + 2) 0
      manualSource := false
      manualSink := false }
  (List.range numNodes.toNat).foldl
    (fun g (i : Nat) =>
      (g.addEdgeRaw Source (i : Int) maxInt64).addEdgeRaw (i : Int) Sink maxInt64)
    base

/-- `FlowNetwork.residual` (the private lowercase one). -/
def residual (g : FlowNetwork) (e : GEdge) : Int :=
  if mget g.capacity e = 0 then mget g.preflow (erev e)
  else mget g.capacity e - mget g.preflow e

/-- `FlowNetwork.Outflow`. -/
def Outflow (g : FlowNetwork) : Int :=
  g.preflow.foldl (fun acc kv => if kv.1.2 = sinkID then acc + kv.2 else acc) 0

/-- `FlowNetwork.Flow`. -/
def Flow (g : FlowNetwork) (fromID toID : Int) : Int :=
  mget g.preflow (fromID + 2, toID + 2)

/-- `FlowNetwork.Capacity`. -/
def Capacity (g : FlowNetwork) (fromID toID : Int) : Int :=
  mget g.capacity (fromID + 2, toID + 2)

/-- `FlowNetwork.Residual`. -/
def Residual (g : FlowNetwork) (fromID toID : Int) : Int :=
  g.residual (fromID + 2, toID + 2)

/-- `FlowNetwork.AddNode`.  Returns the new ID together with the new state. -/
def AddNode (g : FlowNetwork) : Int × FlowNetwork :=
  let id := g.numNodes
  let g : FlowNetwork :=
    { g with
      numNodes := g.numNodes + 1
      excess := g.excess ++ [0]
      label := g.label ++ [0]
      seen := g.seen ++ [0]
      adjacencyList := g.adjacencyList ++ [[]] }
  let g := if g.manualSource then g else g.addEdgeRaw Source id maxInt64
  let g := if g.manualSink then g else g.addEdgeRaw id Sink maxInt64
  (id, g)

/-- `FlowNetwork.enableManualSource`. -/
def enableManualSource (g : FlowNetwork) : FlowNetwork :=
  if g.manualSource then g
  else
    let g := { g with manualSource := true }
    (List.range g.numNodes.toNat).foldl
      (fun g (i : Nat) =>
        { g with
          capacity := mdel g.capacity (sourceID, (i : Int) + 2)
          adjacencyList := adjDel g.adjacencyList sourceID ((i : Int) + 2) })
      g

/-- `FlowNetwork.enableManualSink`. -/
def enableManualSink (g : FlowNetwork) : FlowNetwork :=
  if g.manualSink then g
  else
    let g := { g with manualSink := true }
    (List.range g.numNodes.toNat).foldl
      (fun g (i : Nat) =>
        { g with
          capacity := mdel g.capacity ((i : Int) + 2, sinkID)
          adjacencyList := adjDel g.adjacencyList ((i : Int) + 2) sinkID })
      g

/-- `FlowNetwork.AddEdge`, embedding each early-return as `Except.error`. -/
def AddEdge (g : FlowNetwork) (fromID toID : Int) (cap : Int) :
    Except String FlowNetwork :=
  if fromID < -2 ∨ fromID ≥ g.numNodes then .error "no node with this ID is known"
  else if toID < -2 ∨ toID ≥ g.numNodes then .error "no node with this ID is known"
  else if toID = Source then .error "no node can connect to the source pseudonode"
  else if fromID = Sink then .error "no node can be connected to from the sink pseudonode"
  else
    let g := if fromID = Source then g.enableManualSource else g
    let g := if toID = Sink then g.enableManualSink else g
    let g := g.addEdgeRaw fromID toID cap
    let g :=
      if g.manualSource then g
      else
        { g with
          capacity := mdel g.capacity (sourceID, toID + 2)
          adjacencyList := adjDel g.adjacencyList sourceID (toID + 2) }
    let g :=
      if g.manualSink then g
      else
        { g with
          capacity := mdel g.capacity (fromID + 2, sinkID)
          adjacencyList := adjDel g.adjacencyList (fromID + 2) sinkID }
    .ok g

/-- The default node order built by `reset` when `nodeOrder` is stale:
internal IDs `numNodes+1, numNodes, ..., 2`. -/
def defaultOrder (numNodes : Int) : List Int :=
  (List.range numNodes.toNat).map (fun (i : Nat) => numNodes - 1 - (i : Int) + 2)

/-- One adjacency-visit list, built as in `reset`: walk `ord ++ [source, sink]`
and prepend every `v` adjacent to `u` in either direction. -/
def buildVisit (adj : List (List Int)) (ord : List Int) (u : Int) : List Int :=
  (ord ++ [sourceID, sinkID]).foldl
    (fun acc v => if v ∈ aget adj u ∨ u ∈ aget adj v then v :: acc else acc) []

/-- The `adjacencyVisitList` rebuilt by `reset`. -/
def buildVisitAll (adj : List (List Int)) (ord : List Int) : List (List Int) :=
  (List.range adj.length).map (fun (u : Nat) => buildVisit adj ord (u : Int))

/-- Sum of the capacities of the edges leaving `u`, skipping source and sink,
as computed inside `reset`. -/
def outgoingCapacity (g : FlowNetwork) (u : Int) : Int :=
  (aget g.adjacencyList u).foldl
    (fun acc v => if v = sinkID ∨ v = sourceID then acc else acc + mget g.capacity (u, v)) 0

/-- The node order used by `reset`: the stored one when its length is
current, the default otherwise. -/
def resetOrder (g : FlowNetwork) : List Int :=
  if (g.nodeOrder.length : Int) ≠ g.numNodes then defaultOrder g.numNodes
  else g.nodeOrder

/-- The label slice written by `reset`: `label[source] = numNodes + 2`,
`label[sink] = 0`, `label[i+2] = 0` for each user node. -/
def resetLabels (g : FlowNetwork) : List Int :=
  (List.range g.numNodes.toNat).foldl (fun acc (i : Nat) => iset acc ((i : Int) + 2) 0)
    (iset (iset g.label sourceID (g.numNodes + 2)) sinkID 0)

/-- One iteration of the source-saturation loop of `reset`. -/
def resetStep (gt : FlowNetwork × Int) (u : Int) : FlowNetwork × Int :=
  if mhas gt.1.capacity (sourceID, u) then
    let outCap := outgoingCapacity gt.1 u
    ({ gt.1 with
        capacity := mset gt.1.capacity (sourceID, u) outCap
        excess := iset gt.1.excess u outCap
        preflow := mset gt.1.preflow (sourceID, u) outCap },
     gt.2 + outCap)
  else gt

/-- The internal IDs `2, 3, ..., numNodes + 1` walked by `reset`'s
source-saturation loop. -/
def userIDs (g : FlowNetwork) : List Int :=
  (List.range g.numNodes.toNat).map (fun (i : Nat) => (i : Int) + 2)

/-- The state after `reset`'s bookkeeping writes, before the
source-saturation loop. -/
def resetPre (g : FlowNetwork) : FlowNetwork :=
  { g with
    nodeOrder := resetOrder g
    adjacencyVisitList := buildVisitAll g.adjacencyList (resetOrder g)
    label := resetLabels g
    preflow := [] }

/-- `FlowNetwork.reset`. -/
def reset (g : FlowNetwork) : FlowNetwork :=
  let gt := (userIDs g).foldl resetStep (resetPre g, 0)
  { gt.1 with excess := iset gt.1.excess sourceID (-gt.2) }

/-- `FlowNetwork.push`. -/
def push (g : FlowNetwork) (e : GEdge) : FlowNetwork :=
  let delta := min (iget g.excess e.1) (g.residual e)
  let g :=
    if mget g.capacity e > 0 then
      { g with preflow := mset g.preflow e (mget g.preflow e + delta) }
    else
      { g with preflow := mset g.preflow (erev e) (mget g.preflow (erev e) - delta) }
  let g := { g with excess := iset g.excess e.1 (iget g.excess e.1 - delta) }
  { g with excess := iset g.excess e.2 (iget g.excess e.2 + delta) }

/-- The visit list of one node. -/
def visit (g : FlowNetwork) (u : Int) : List Int :=
  (g.adjacencyVisitList.getD u.toNat [])

/-- One step of the `relabel` minimum scan over the visit list. -/
def relabelStep (u : Int) (p : Int × FlowNetwork) (w : Int) : Int × FlowNetwork :=
  if p.2.residual (u, w) > 0 then
    (min p.1 (iget p.2.label w),
      { p.2 with label := iset p.2.label u (min p.1 (iget p.2.label w) + 1) })
  else p

/-- `FlowNetwork.relabel`; `none` embeds the `log.Fatalf` abort. -/
def relabel (g : FlowNetwork) (u : Int) : Option FlowNetwork :=
  if ((g.visit u).foldl (relabelStep u) (maxInt32 - 1, g)).1 + 1 = maxInt32 then none
  else some ((g.visit u).foldl (relabelStep u) (maxInt32 - 1, g)).2

/-- `FlowNetwork.discharge`, with explicit fuel for the `for` loop;
`none` means the fuel ran out, `relabel` hit its fatal abort, or the
visit-list index `seen[u]` was out of bounds (a Go slice-index panic). -/
def discharge : Nat → FlowNetwork → Int → Option FlowNetwork
  | 0, _, _ => none
  | fuel + 1, g, u =>
    if iget g.excess u > 0 then
      if iget g.seen u = ((g.visit u).length : Int) then
        match g.relabel u with
        | none => none
        | some g => discharge fuel { g with seen := iset g.seen u 0 } u
      else
        if 0 ≤ iget g.seen u ∧ iget g.seen u < ((g.visit u).length : Int) then
          if g.residual (u, (g.visit u).getD (iget g.seen u).toNat 0) > 0 ∧
              iget g.label u
                = iget g.label ((g.visit u).getD (iget g.seen u).toNat 0) + 1 then
            discharge fuel (g.push (u, (g.visit u).getD (iget g.seen u).toNat 0)) u
          else
            discharge fuel { g with seen := iset g.seen u (iget g.seen u + 1) } u
        else none
    else some g

/-- The main loop of `PushRelabel`: walk `nodeQueue` from back to front,
moving any relabelled node to the back. -/
def mainLoop : Nat → FlowNetwork → List Int → Int → Option FlowNetwork
  | 0, _, _, _ => none
  | fuel + 1, g, q, p =>
    if p ≥ 0 then
      match discharge (fuel + 1) g (q.getD p.toNat 0) with
      | none => none
      | some h =>
        if iget h.label (q.getD p.toNat 0) > iget g.label (q.getD p.toNat 0) then
          mainLoop fuel h (q.eraseIdx p.toNat ++ [q.getD p.toNat 0])
            ((q.length : Int) - 1)
        else
          mainLoop fuel h q (p - 1)
    else some g

/-- `FlowNetwork.PushRelabel` with fuel. -/
def PushRelabel (fuel : Nat) (g : FlowNetwork) : Option FlowNetwork :=
  mainLoop fuel g.reset g.reset.nodeOrder ((g.reset.nodeOrder.length : Int) - 1)

end FlowNetwork

/-! ## TopSort and its heap

`container/heap` on the Go `nodeHeap`: `heap.Push` appends and sifts up;
the code then calls the *raw* `nodeHeap.Pop`, which removes and returns the
last element of the backing slice (it does not go through `heap.Pop`). -/

/-- One sift-up pass of `container/heap` (`up`); the fuel only bounds the
strictly decreasing index `j`, so any fuel `> j` computes the fixpoint. -/
def heapUp (less : Int → Int → Bool) : Nat → List Int → Nat → List Int
  | 0, h, _ => h
  | fuel + 1, h, j =>
    let i := (j - 1) / 2
    if i = j ∨ ¬ less (h.getD j 0) (h.getD i 0) then h
    else heapUp less fuel ((h.set j (h.getD i 0)).set i (h.getD j 0)) i

/-- One sift-down pass of `container/heap` (`down`), fuelled. -/
def heapDown (less : Int → Int → Bool) : Nat → List Int → Nat → List Int
  | 0, h, _ => h
  | fuel + 1, h, i =>
    let j1 := 2 * i + 1
    if j1 ≥ h.length then h
    else
      let j := if j1 + 1 < h.length ∧ less (h.getD (j1 + 1) 0) (h.getD j1 0)
               then j1 + 1 else j1
      if ¬ less (h.getD j 0) (h.getD i 0) then h
      else heapDown less fuel ((h.set i (h.getD j 0)).set j (h.getD i 0)) j

/-- `heap.Init`. -/
def heapInit (less : Int → Int → Bool) (h : List Int) : List Int :=
  (List.range (h.length / 2)).reverse.foldl (fun h i => heapDown less h.length h i) h

/-- `heap.Push`. -/
def heapPush (less : Int → Int → Bool) (h : List Int) (x : Int) : List Int :=
  let h := h ++ [x]
  heapUp less h.length h (h.length - 1)

/-- The raw `nodeHeap.Pop`: return and drop the **last** element of the
backing slice (the code calls this directly instead of `heap.Pop`). -/
def rawPop (h : List Int) : Int × List Int :=
  (h.getD (h.length - 1) 0, h.take (h.length - 1))

/-- The incoming-edge sets of `TopSort` (`unvisitedEdges`), indexed by
internal ID: all `from` with `capacity[(from, to)] > 0`. -/
def unvisitedEdges (g : FlowNetwork) : List (List Int) :=
  g.capacity.foldl
    (fun uv kv =>
      if kv.2 ≤ 0 then uv
      else uv.set kv.1.2.toNat (insertOnce (uv.getD kv.1.2.toNat []) kv.1.1))
    (List.replicate (g.numNodes.toNat + 2) [])

/-- The body of the `for roots.Len() > 0` loop of `TopSort`, fuelled. -/
def topSortLoop (g : FlowNetwork) (less : Int → Int → Bool) :
    Nat → List Int → List (List Int) → List Int → List Int × List (List Int)
  | 0, _, uv, res => (res, uv)
  | fuel + 1, roots, uv, res =>
    if roots.length = 0 then (res, uv)
    else
      let (next, roots) := rawPop roots
      let res := if next ≠ sourceID ∧ next ≠ sinkID then res ++ [next - 2] else res
      let (roots, uv) :=
        (aget g.adjacencyList next).foldl
          (fun (roots, uv) nb =>
            let uv := uv.set nb.toNat ((uv.getD nb.toNat []).erase next)
            if (uv.getD nb.toNat []).length = 0 then (heapPush less roots nb, uv)
            else (roots, uv))
          (roots, uv)
      topSortLoop g less fuel roots uv res

/-- `flownet.TopSort`, fuelled. -/
def TopSort (g : FlowNetwork) (less : Int → Int → Bool) (fuel : Nat) :
    Except String (List Int) :=
  let uv := unvisitedEdges g
  let roots := heapInit less [sourceID]
  let (res, uv) := topSortLoop g less fuel roots uv []
  let leftover := uv.foldl (fun acc s => acc + s.length) 0
  if leftover > 0 then .error "graph has a cycle" else .ok res

/-! ## Circulation -/

/-- Association-list embedding of Go `map[int]int64` (`nodeDemand`). -/
abbrev NMap := List (Int × Int)

/-- Lookup with Go zero-default. -/
def nget : NMap → Int → Int
  | [], _ => 0
  | (k, v) :: t, e => if k = e then v else nget t e

/-- Update, keeping keys unique. -/
def ndel : NMap → Int → NMap
  | [], _ => []
  | (k, v) :: t, e => if k = e then ndel t e else (k, v) :: ndel t e

/-- `m[k] = v`. -/
def nset (m : NMap) (k v : Int) : NMap := (k, v) :: ndel m k

/-- The Go struct `Circulation` (embedding struct; the Go type embeds
`FlowNetwork`). -/
structure Circulation where
  fn : FlowNetwork
  demand : EMap
  nodeDemand : NMap
  nodeSource : Int
  nodeSink : Int
  targetValue : Int
  deriving Repr, DecidableEq, Inhabited

namespace Circulation

/-- `NewCirculation`. -/
def newCirculation (numNodes : Int) : Circulation :=
  { fn := FlowNetwork.newFlowNetwork numNodes
    demand := []
    nodeDemand := []
    nodeSource := 0
    nodeSink := 0
    targetValue := 0 }

/-- Helper: apply an `AddEdge` whose error the Go code discards. -/
def addEdgeIgnoringError (g : FlowNetwork) (fromID toID cap : Int) : FlowNetwork :=
  match g.AddEdge fromID toID cap with
  | .ok g' => g'
  | .error _ => g

/-- `Circulation.SetNodeDemand`. -/
def SetNodeDemand (c : Circulation) (nodeID demand : Int) :
    Except String Circulation :=
  if nodeID = Source ∨ nodeID = Sink then
    .error "no demand can be set for the source or sink"
  else if nodeID < 0 ∨ nodeID ≥ c.fn.numNodes then
    .error "no node with this id is known"
  else
    let c :=
      if demand ≠ 0 ∧ c.nodeSource = 0 then
        let (ns, fn) := c.fn.AddNode
        let (nk, fn) := fn.AddNode
        let fn := addEdgeIgnoringError fn nk ns maxInt64
        { c with fn := fn, nodeSource := ns, nodeSink := nk }
      else c
    let c :=
      if demand = 0 then
        let fn := addEdgeIgnoringError c.fn c.nodeSource nodeID 0
        let fn := addEdgeIgnoringError fn nodeID c.nodeSink 0
        { c with fn := fn }
      else c
    let c :=
      if demand > 0 then
        { c with fn := addEdgeIgnoringError c.fn nodeID c.nodeSink demand }
      else c
    let c :=
      if demand < 0 then
        { c with fn := addEdgeIgnoringError c.fn c.nodeSource nodeID (-demand) }
      else c
    .ok { c with nodeDemand := nset c.nodeDemand (nodeID + 2) demand }

/-- `Circulation.AddEdge`. -/
def AddEdge (c : Circulation) (fromID toID cap demand : Int) :
    Except String Circulation :=
  if fromID = Source ∨ fromID = Sink ∨ toID = Source ∨ toID = Sink then
    .error "edges to/from the source/sink nodes cannot be used in a Circulation"
  else if cap < demand then
    .error "capacity cannot be smaller than demand"
  else
    match c.fn.AddEdge fromID toID cap with
    | .error e => .error e
    | .ok fn =>
      let e : GEdge := (fromID + 2, toID + 2)
      let fn := { fn with capacity := mset fn.capacity e (cap - demand) }
      let dm := if demand ≠ 0 then mset c.demand e demand else mdel c.demand e
      .ok { c with fn := fn, demand := dm }

/-- `Circulation.Capacity`. -/
def Capacity (c : Circulation) (fromID toID : Int) : Int :=
  c.fn.Capacity fromID toID + mget c.demand (fromID + 2, toID + 2)

/-- `Circulation.Flow`. -/
def Flow (c : Circulation) (fromID toID : Int) : Int :=
  c.fn.Flow fromID toID + mget c.demand (fromID + 2, toID + 2)

/-- `Circulation.EdgeDemand`. -/
def EdgeDemand (c : Circulation) (fromID toID : Int) : Int :=
  mget c.demand (fromID + 2, toID + 2)

/-- `Circulation.NodeDemand`. -/
def NodeDemand (c : Circulation) (nodeID : Int) : Int :=
  nget c.nodeDemand (nodeID + 2)

/-- `Circulation.Outflow` (inherited from the embedded `FlowNetwork`). -/
def Outflow (c : Circulation) : Int := c.fn.Outflow

/-- `Circulation.SatisfiesDemand`. -/
def SatisfiesDemand (c : Circulation) : Bool := c.Outflow = c.targetValue

/-- One iteration of the edge-demand rewiring loop inside
`Circulation.PushRelabel`: add the demand to `capacity[{e.from, sinkID}]`
and `capacity[{sourceID, e.to}]` (with the matching adjacency entries) and
accumulate positive demands into the target value. -/
def demandStep : FlowNetwork × Int → GEdge × Int → FlowNetwork × Int :=
  fun (fn, tv) ed =>
    let fn :=
      if ed.2 ≠ 0 then
        let fn :=
          { fn with
            capacity := mset fn.capacity (ed.1.1, sinkID)
                (mget fn.capacity (ed.1.1, sinkID) + ed.2)
            adjacencyList := adjAdd fn.adjacencyList ed.1.1 sinkID }
        { fn with
          capacity := mset fn.capacity (sourceID, ed.1.2)
              (mget fn.capacity (sourceID, ed.1.2) + ed.2)
          adjacencyList := adjAdd fn.adjacencyList sourceID ed.1.2 }
      else fn
    (fn, if ed.2 > 0 then tv + ed.2 else tv)

/-- The network and target value handed to the inner
`FlowNetwork.PushRelabel` by `Circulation.PushRelabel` when demands are
present: source/sink edges filtered out, demand rewiring applied, and the
node-demand special case when there are no edge demands. -/
def transformed (c : Circulation) : FlowNetwork × Int :=
  let fn :=
    { c.fn with
      capacity :=
        c.fn.capacity.filter (fun kv => ¬(kv.1.1 = sourceID ∨ kv.1.2 = sinkID)) }
  let ft := c.demand.foldl demandStep (fn, 0)
  if c.demand.length = 0 then
    (let fn :=
      { ft.1 with
        capacity := mset ft.1.capacity (sourceID, c.nodeSource + 2) maxInt64 }
     let fn :=
      { fn with capacity := mset fn.capacity (c.nodeSink + 2, sinkID) maxInt64 }
     { fn with capacity := mdel fn.capacity (c.nodeSink + 2, c.nodeSource + 2) },
     c.nodeDemand.foldl (fun tv kv => if kv.2 > 0 then tv + kv.2 else tv) ft.2)
  else ft

/-- `Circulation.PushRelabel`, fuelled. -/
def PushRelabel (fuel : Nat) (c : Circulation) : Option Circulation :=
  if c.demand.length = 0 ∧ c.nodeDemand.length = 0 then
    (c.fn.PushRelabel fuel).map (fun fn => { c with fn := fn })
  else
    (((transformed c).1).PushRelabel fuel).map
      (fun fn => { c with fn := fn, targetValue := (transformed c).2 })

end Circulation

/-! ## Transshipment -/

/-- The Go struct `Transshipment` (embedding struct; the Go type embeds
`Circulation`).  `bounds` mirrors the Go `map[int]bounds`, keyed — as in
the Go code — by `nodeID + 2`; each value is the `(capacity, demand)`
pair. -/
structure Transshipment where
  circ : Circulation
  bounds : List (Int × Int × Int)
  specialNode : Int
  deriving Repr, DecidableEq, Inhabited

namespace Transshipment

/-- Remove a bounds entry. -/
def bdel : List (Int × Int × Int) → Int → List (Int × Int × Int)
  | [], _ => []
  | (k, v) :: t, e => if k = e then bdel t e else (k, v) :: bdel t e

/-- `t.bounds[k] = v`, keys kept unique. -/
def bset (m : List (Int × Int × Int)) (k : Int) (v : Int × Int) :
    List (Int × Int × Int) := (k, v.1, v.2) :: bdel m k

/-- `NewTransshipment`. -/
def newTransshipment (numNodes : Int) : Transshipment :=
  { circ := Circulation.newCirculation numNodes
    bounds := []
    specialNode := -1 }

/-- `Transshipment.SetNodeBounds`. -/
def SetNodeBounds (t : Transshipment) (nodeID cap demand : Int) :
    Except String Transshipment :=
  if nodeID < 0 ∨ t.circ.fn.numNodes ≤ nodeID then
    .error "node node with ID is known"
  else if cap < demand then
    .error "capacity cannot be smaller than demand"
  else .ok { t with bounds := bset t.bounds (nodeID + 2) (cap, demand) }

/-- The bounds-edge loop of `Transshipment.PushRelabel`: each entry is fed
to `Circulation.AddEdge` with its *stored* key (`nodeID + 2`) as the from
ID, the error being discarded. -/
def addBoundsEdges (c : Circulation) (sp : Int)
    (bs : List (Int × Int × Int)) : Circulation :=
  bs.foldl
    (fun c kv =>
      match c.AddEdge kv.1 sp kv.2.1 kv.2.2 with
      | .ok c2 => c2
      | .error _ => c) c

/-- `Transshipment.PushRelabel`, fuelled: allocate the special node on
first use, re-add the bounds edges, then run the circulation. -/
def PushRelabel (fuel : Nat) (t : Transshipment) : Option Transshipment :=
  let t :=
    if t.specialNode = -1 then
      let p := t.circ.fn.AddNode
      { t with circ := { t.circ with fn := p.2 }, specialNode := p.1 }
    else t
  let c := addBoundsEdges t.circ t.specialNode t.bounds
  (c.PushRelabel fuel).map (fun c => { t with circ := c })

/-- `Transshipment.Flow` (promoted from the embedded `Circulation`). -/
def Flow (t : Transshipment) (fromID toID : Int) : Int :=
  t.circ.Flow fromID toID

/-- `Transshipment.Outflow` (promoted from the embedded `Circulation`). -/
def Outflow (t : Transshipment) : Int := t.circ.Outflow

end Transshipment

/-! ## Concrete instances used by the scenario claims -/

/-- `true` iff an `AddEdge`-style call returned without error. -/
def isOkE {α : Type} (e : Except String α) : Bool :=
  match e with
  | .ok _ => true
  | .error _ => false

/-- The edges of spec Scenario 1 (also `ExampleFlowNetwork`). -/
def scenario1Edges : List (Int × Int × Int) :=
  [(0, 1, 15), (0, 2, 4), (1, 3, 12), (3, 2, 3), (2, 4, 10), (4, 1, 5), (4, 5, 10), (3, 5, 7)]

/-- The 6-node network of Scenario 1. -/
def scenario1Net : FlowNetwork :=
  scenario1Edges.foldl
    (fun g e => Circulation.addEdgeIgnoringError g e.1 e.2.1 e.2.2)
    (FlowNetwork.newFlowNetwork 6)

/-- Scenario 1 after one `PushRelabel` (400 fuel steps are plenty). -/
def scenario1Run : Option FlowNetwork := FlowNetwork.PushRelabel 400 scenario1Net

/-- The strict order on internal node IDs handed to `TopSort` by the
repository's own test (`func(x, y int) bool { return x < y }`). -/
def intLt : Int → Int → Bool := fun a b => decide (a < b)

/-- The 3-node network of Scenario 5 after `AddEdge(Source, 0, 5)`. -/
def scenario5Net : FlowNetwork :=
  Circulation.addEdgeIgnoringError (FlowNetwork.newFlowNetwork 3) Source 0 5

/-- A small two-node auto-wired network used to exercise `PushRelabel` at
concrete inputs. -/
def smallNet : FlowNetwork := FlowNetwork.newFlowNetwork 2

/-- A one-node network with a direct `Source → Sink` edge: first
`AddEdge(0, Sink, 3)` switches to manual-sink mode, then
`AddEdge(Source, Sink, 5)` records a capacity on the `(Source, Sink)`
pair itself (and survives, since manual-sink mode suppresses the
auto-wiring cleanup). -/
def ssNet : FlowNetwork :=
  Circulation.addEdgeIgnoringError
    (Circulation.addEdgeIgnoringError (FlowNetwork.newFlowNetwork 1) 0 Sink 3)
    Source Sink 5

deriving instance DecidableEq for Except

/-! ## Definitions for the invariant proofs -/

namespace FlowNetwork

/-- `v` is a node slot of `g` (internal ID in `[0, numNodes+2)`). -/
def InRange (g : FlowNetwork) (v : Int) : Prop := 0 ≤ v ∧ v < g.numNodes + 2

instance (g : FlowNetwork) (v : Int) : Decidable (g.InRange v) := by
  unfold InRange; infer_instance

/-- One step of the residual-graph search performed by
`SanityCheckers.augmentingPathCheck`: an in-range node `v` with positive
residual on `(u, v)`. -/
def StepR (g : FlowNetwork) (u v : Int) : Prop :=
  0 ≤ v ∧ v < g.numNodes + 2 ∧ g.residual (u, v) > 0

/-- A path in the residual graph: `PathR g u l w` says the search walks
from `u` through the successive nodes of `l`, ending at `w`. -/
inductive PathR (g : FlowNetwork) : Int → List Int → Int → Prop where
  | nil (u : Int) : PathR g u [] u
  | cons {u v w : Int} {l : List Int} :
      g.StepR u v → PathR g v l w → PathR g u (v :: l) w

/-- `w` is reachable from `u` in the residual graph by the checker's
search. -/
def Reaches (g : FlowNetwork) (u w : Int) : Prop := ∃ l, PathR g u l w

/-- An admissible residual edge: positive residual, label drops by one. -/
def Admissible (g : FlowNetwork) (e : GEdge) : Prop :=
  g.residual e > 0 ∧ iget g.label e.1 = iget g.label e.2 + 1

/-- Well-formedness of a network handed to `PushRelabel`: the structural
facts every network built through the public API satisfies.  All parts are
decidable, so a witness can check them on a concrete instance. -/
def WellFormed (g : FlowNetwork) : Prop :=
  0 ≤ g.numNodes ∧
  g.numNodes + 2 ≤ maxInt32 ∧
  (g.label.length : Int) = g.numNodes + 2 ∧
  (g.excess.length : Int) = g.numNodes + 2 ∧
  (g.seen.length : Int) = g.numNodes + 2 ∧
  (g.adjacencyList.length : Int) = g.numNodes + 2 ∧
  (∀ kv ∈ g.capacity, g.InRange kv.1.1 ∧ g.InRange kv.1.2 ∧
    kv.1.2 ∈ aget g.adjacencyList kv.1.1) ∧
  (∀ kv ∈ g.capacity, 0 ≤ kv.2) ∧
  (∀ l ∈ g.adjacencyList, ∀ v ∈ l, g.InRange v) ∧
  (∀ p ∈ g.adjacencyList.enum, (p.1 : Int) ∉ p.2) ∧
  ((g.nodeOrder.length : Int) = g.numNodes →
    (∀ x ∈ g.nodeOrder, 2 ≤ x ∧ x < g.numNodes + 2) ∧
    (∀ i ∈ List.range g.numNodes.toNat, ((i : Int) + 2) ∈ g.nodeOrder)) ∧
  (∀ x ∈ g.excess.drop 2, x = 0)

instance (g : FlowNetwork) : Decidable (g.WellFormed) := by
  unfold WellFormed; infer_instance

/-- Sum of the preflow entering `v` (`Σ preflow(*, v)`). -/
def inflow : EMap → Int → Int
  | [], _ => 0
  | (k, x) :: t, v => (if k.2 = v then x else 0) + inflow t v

/-- Sum of the preflow leaving `v` (`Σ preflow(v, *)`). -/
def outflowFrom : EMap → Int → Int
  | [], _ => 0
  | (k, x) :: t, v => (if k.1 = v then x else 0) + outflowFrom t v

/-- The runtime invariant of the push–relabel main loop. -/
structure LoopInv (g : FlowNetwork) : Prop where
  hnn : 0 ≤ g.numNodes
  hsmall : g.numNodes + 2 ≤ maxInt32
  lenLab : (g.label.length : Int) = g.numNodes + 2
  lenExc : (g.excess.length : Int) = g.numNodes + 2
  lenSeen : (g.seen.length : Int) = g.numNodes + 2
  visitRange : ∀ u v : Int, v ∈ g.visit u → 0 ≤ v ∧ v < g.numNodes + 2
  visitSym : ∀ u v : Int, g.InRange u → g.InRange v → (v ∈ g.visit u ↔ u ∈ g.visit v)
  visitNoSelf : ∀ u : Int, u ∉ g.visit u
  resSupport : ∀ u v : Int, g.InRange u → g.InRange v → g.residual (u, v) > 0 →
    v ∈ g.visit u
  valid : ∀ u v : Int, g.InRange u → g.InRange v →
    ¬(u = sourceID ∧ v = sinkID) → g.residual (u, v) > 0 →
    iget g.label u ≤ iget g.label v + 1
  labNonneg : ∀ v : Int, 0 ≤ iget g.label v
  labBound : ∀ v : Int, iget g.label v ≤ maxInt32
  labSrc : iget g.label sourceID = g.numNodes + 2
  labSink : iget g.label sinkID = 0
  excUser : ∀ u : Int, 2 ≤ u → u < g.numNodes + 2 → 0 ≤ iget g.excess u
  pfBounds : ∀ e : GEdge, mhas g.capacity e = true →
    0 ≤ mget g.preflow e ∧ mget g.preflow e ≤ mget g.capacity e
  pfND : keysND g.preflow
  pfSupport : ∀ e : GEdge, mget g.preflow e ≠ 0 → mhas g.capacity e = true
  excEq : ∀ u : Int, 2 ≤ u → u < g.numNodes + 2 →
    iget g.excess u = inflow g.preflow u - outflowFrom g.preflow u

/-- What one successful `discharge u` guarantees, relating its input state
`g` to its output state `g'`. -/
structure DSpec (u : Int) (g g' : FlowNetwork) : Prop where
  inv : g'.LoopInv
  num : g'.numNodes = g.numNodes
  cap : g'.capacity = g.capacity
  avl : g'.adjacencyVisitList = g.adjacencyVisitList
  ord : g'.nodeOrder = g.nodeOrder
  exc0 : iget g'.excess u ≤ 0
  labMono : iget g.label u ≤ iget g'.label u
  labOther : ∀ w : Int, w.toNat ≠ u.toNat → iget g'.label w = iget g.label w
  resOther : ∀ x y : Int, x ≠ u → y ≠ u → g'.residual (x, y) = g.residual (x, y)
  resMono : ∀ x : Int, x ≠ u → g'.residual (u, x) ≤ g.residual (u, x)
  resInto : ∀ w : Int, g.InRange w → w ≠ u → g'.residual (w, u) > 0 →
    g.residual (w, u) > 0 ∨ iget g'.label w < iget g'.label u
  excFrozen : iget g'.label u = iget g.label u →
    ∀ x : Int, g.InRange x → x ≠ u → ¬ g.Admissible (u, x) →
      iget g'.excess x = iget g.excess x

/-- The bisimulation relation between a first run (`s`) and a second run
(`t`) of the main loop: the two states agree on everything `discharge`
reads, except that `t` may carry stale `seen` cursors at nodes whose label
is still `0` (such nodes can never push, so the stale cursor only affects
how fast the scan reaches the end of the visit list, after which `relabel`
makes the labels positive and resets the cursor on both sides). -/
structure Bisim (s t : FlowNetwork) : Prop where
  num : t.numNodes = s.numNodes
  avl : t.adjacencyVisitList = s.adjacencyVisitList
  lab : t.label = s.label
  labNN : ∀ v : Int, 0 ≤ iget s.label v
  cap : ∀ e : GEdge, mget t.capacity e = mget s.capacity e
  pf : ∀ e : GEdge, mget t.preflow e = mget s.preflow e
  pfNDs : keysND s.preflow
  pfNDt : keysND t.preflow
  lenEs : (s.excess.length : Int) = s.numNodes + 2
  lenEt : (t.excess.length : Int) = s.numNodes + 2
  exc : ∀ v : Int, 2 ≤ v → v < s.numNodes + 2 → iget t.excess v = iget s.excess v
  lenSs : (s.seen.length : Int) = s.numNodes + 2
  lenSt : (t.seen.length : Int) = s.numNodes + 2
  seenEq : ∀ v : Int, 2 ≤ v → v < s.numNodes + 2 →
    iget t.seen v = iget s.seen v ∨ iget s.label v = 0

/-- The relation between the states handed to a first (`s`) and a second
(`t`) invocation of `PushRelabel` that makes `reset` align them: same
size, extensionally equal capacities away from the source-saturation keys,
permuted adjacency sets, the same effective node order, and equal excess
at user nodes. -/
structure PreB (s t : FlowNetwork) : Prop where
  hnn : 0 ≤ s.numNodes
  num : t.numNodes = s.numNodes
  lenLs : (s.label.length : Int) = s.numNodes + 2
  lenLt : (t.label.length : Int) = s.numNodes + 2
  lenEs : (s.excess.length : Int) = s.numNodes + 2
  lenEt : (t.excess.length : Int) = s.numNodes + 2
  lenSs : (s.seen.length : Int) = s.numNodes + 2
  lenSt : (t.seen.length : Int) = s.numNodes + 2
  adjLen : t.adjacencyList.length = s.adjacencyList.length
  adjPerm : ∀ u : Int, (aget t.adjacencyList u).Perm (aget s.adjacencyList u)
  ord : FlowNetwork.resetOrder t = FlowNetwork.resetOrder s
  capU : ∀ e : GEdge, e.1 ≠ sourceID → mget t.capacity e = mget s.capacity e
  capS : ∀ e : GEdge, e.1 = sourceID → e.2 ∉ s.userIDs →
    mget t.capacity e = mget s.capacity e
  caph : ∀ e : GEdge, mhas t.capacity e = mhas s.capacity e
  exc : ∀ v : Int, 2 ≤ v → v < s.numNodes + 2 → iget t.excess v = iget s.excess v

end FlowNetwork

end Flownet

/-! # Theorems -/

namespace Flownet

/-! ## Association-list map lemmas -/

theorem mget_mdel_ne (m : EMap) (k e : GEdge) (h : k ≠ e) :
    mget (mdel m k) e = mget m e := by
  induction m with
  | nil => rfl
  | cons hd t ih =>
    obtain ⟨a, v⟩ := hd
    simp only [mdel, mget]
    by_cases h1 : a = k
    · rw [if_pos h1, ih, if_neg (fun h2 => h (h1.symm.trans h2))]
    · rw [if_neg h1]
      simp only [mget]
      by_cases h2 : a = e
      · rw [if_pos h2, if_pos h2]
      · rw [if_neg h2, if_neg h2, ih]

theorem mget_mset_eq (m : EMap) (k : GEdge) (v : Int) :
    mget (mset m k v) k = v := by
  simp [mset, mget]

theorem mget_mset_ne (m : EMap) (k e : GEdge) (v : Int) (h : k ≠ e) :
    mget (mset m k v) e = mget m e := by
  simp only [mset, mget]
  rw [if_neg h, mget_mdel_ne m k e h]

theorem mhas_mdel_eq (m : EMap) (k : GEdge) :
    mhas (mdel m k) k = false := by
  induction m with
  | nil => rfl
  | cons hd t ih =>
    obtain ⟨a, v⟩ := hd
    simp only [mdel]
    by_cases h1 : a = k
    · rw [if_pos h1]; exact ih
    · rw [if_neg h1]
      simp only [mhas]
      rw [if_neg h1]; exact ih

theorem mhas_mdel_ne (m : EMap) (k e : GEdge) (h : k ≠ e) :
    mhas (mdel m k) e = mhas m e := by
  induction m with
  | nil => rfl
  | cons hd t ih =>
    obtain ⟨a, v⟩ := hd
    simp only [mdel, mhas]
    by_cases h1 : a = k
    · rw [if_pos h1, ih, if_neg (fun h2 => h (h1.symm.trans h2))]
    · rw [if_neg h1]
      simp only [mhas]
      by_cases h2 : a = e
      · rw [if_pos h2, if_pos h2]
      · rw [if_neg h2, if_neg h2, ih]

theorem mhas_mset_eq (m : EMap) (k : GEdge) (v : Int) :
    mhas (mset m k v) k = true := by
  simp [mset, mhas]

theorem mhas_mset_ne (m : EMap) (k e : GEdge) (v : Int) (h : k ≠ e) :
    mhas (mset m k v) e = mhas m e := by
  simp only [mset, mhas]
  rw [if_neg h, mhas_mdel_ne m k e h]

theorem mget_mdel (m : EMap) (k e : GEdge) :
    mget (mdel m k) e = if k = e then 0 else mget m e := by
  by_cases h : k = e
  · subst h
    rw [if_pos rfl]
    induction m with
    | nil => rfl
    | cons hd t ih =>
      obtain ⟨a, v⟩ := hd
      simp only [mdel]
      by_cases h1 : a = k
      · rw [if_pos h1]; exact ih
      · rw [if_neg h1]
        simp only [mget]
        rw [if_neg h1]; exact ih
  · rw [if_neg h, mget_mdel_ne m k e h]

theorem mget_mset (m : EMap) (k e : GEdge) (v : Int) :
    mget (mset m k v) e = if k = e then v else mget m e := by
  by_cases h : k = e
  · subst h; rw [if_pos rfl, mget_mset_eq]
  · rw [if_neg h, mget_mset_ne m k e v h]

theorem mhas_mdel (m : EMap) (k e : GEdge) :
    mhas (mdel m k) e = if k = e then false else mhas m e := by
  by_cases h : k = e
  · subst h; rw [if_pos rfl, mhas_mdel_eq]
  · rw [if_neg h, mhas_mdel_ne m k e h]

theorem mhas_mset (m : EMap) (k e : GEdge) (v : Int) :
    mhas (mset m k v) e = if k = e then true else mhas m e := by
  by_cases h : k = e
  · subst h; rw [if_pos rfl, mhas_mset_eq]
  · rw [if_neg h, mhas_mset_ne m k e v h]

theorem mget_mem_or_zero (m : EMap) (e : GEdge) :
    (e, mget m e) ∈ m ∨ mget m e = 0 := by
  induction m with
  | nil => exact Or.inr rfl
  | cons hd t ih =>
    obtain ⟨a, v⟩ := hd
    simp only [mget]
    by_cases h : a = e
    · subst h; rw [if_pos rfl]; exact Or.inl (List.mem_cons_self _ _)
    · rw [if_neg h]
      rcases ih with h1 | h1
      · exact Or.inl (List.mem_cons_of_mem _ h1)
      · exact Or.inr h1

theorem mget_eq_zero_of_mhas_false (m : EMap) (e : GEdge)
    (h : mhas m e = false) : mget m e = 0 := by
  induction m with
  | nil => rfl
  | cons hd t ih =>
    obtain ⟨a, v⟩ := hd
    simp only [mhas] at h
    simp only [mget]
    by_cases h1 : a = e
    · rw [if_pos h1] at h; exact absurd h (by simp)
    · rw [if_neg h1] at h
      rw [if_neg h1]
      exact ih h

theorem mhas_of_mem (m : EMap) (e : GEdge) (v : Int) (h : (e, v) ∈ m) :
    mhas m e = true := by
  induction m with
  | nil => simp at h
  | cons hd t ih =>
    obtain ⟨a, w⟩ := hd
    simp only [mhas]
    by_cases h1 : a = e
    · rw [if_pos h1]
    · rw [if_neg h1]
      rcases List.mem_cons.mp h with h2 | h2
      · exact absurd (congrArg Prod.fst h2).symm h1
      · exact ih h2

theorem mget_mem_of_ne_zero (m : EMap) (e : GEdge) (h : mget m e ≠ 0) :
    (e, mget m e) ∈ m := by
  rcases mget_mem_or_zero m e with h1 | h1
  · exact h1
  · exact absurd h1 h

theorem mhas_of_mget_ne_zero (m : EMap) (e : GEdge) (h : mget m e ≠ 0) :
    mhas m e = true :=
  mhas_of_mem m e _ (mget_mem_of_ne_zero m e h)

/-! ## Go-slice lemmas -/

theorem getD_set_self (l : List Int) (n : Nat) (v : Int) (h : n < l.length) :
    (l.set n v).getD n 0 = v := by
  induction l generalizing n with
  | nil => simp at h
  | cons hd t ih =>
    cases n with
    | zero => rfl
    | succ m =>
      simp only [List.set, List.getD, List.getElem?_cons_succ]
      have := ih m (by simpa using h)
      simpa [List.getD] using this

theorem getD_set_ne (l : List Int) (n m : Nat) (v : Int) (h : n ≠ m) :
    (l.set n v).getD m 0 = l.getD m 0 := by
  induction l generalizing n m with
  | nil => rfl
  | cons hd t ih =>
    cases n with
    | zero =>
      cases m with
      | zero => exact absurd rfl h
      | succ k => rfl
    | succ n' =>
      cases m with
      | zero => rfl
      | succ k =>
        simp only [List.set, List.getD, List.getElem?_cons_succ]
        have := ih n' k (fun hh => h (by omega))
        simpa [List.getD] using this

theorem iget_iset_eq (l : List Int) (i v : Int) (h0 : 0 ≤ i)
    (h1 : i < (l.length : Int)) : iget (iset l i v) i = v := by
  unfold iget iset
  exact getD_set_self l i.toNat v (by omega)

theorem iget_iset_ne' (l : List Int) (i j v : Int) (h : i.toNat ≠ j.toNat) :
    iget (iset l i v) j = iget l j := by
  unfold iget iset
  exact getD_set_ne l i.toNat j.toNat v h

theorem iget_iset_eq' (l : List Int) (i j v : Int) (h : i.toNat = j.toNat)
    (h1 : i.toNat < l.length) : iget (iset l i v) j = v := by
  unfold iget iset
  rw [← h]
  exact getD_set_self l i.toNat v h1

theorem iset_iset (l : List Int) (i a b : Int) :
    iset (iset l i a) i b = iset l i b := by
  unfold iset
  exact List.set_set a b l i.toNat

theorem iget_iset_ne (l : List Int) (i j v : Int) (h0 : 0 ≤ i) (h2 : 0 ≤ j)
    (h : i ≠ j) : iget (iset l i v) j = iget l j :=
  iget_iset_ne' l i j v (by omega)

theorem length_iset (l : List Int) (i v : Int) :
    (iset l i v).length = l.length := by
  unfold iset
  exact List.length_set l i.toNat v

theorem iget_out_of_range (l : List Int) (i : Int)
    (h : (l.length : Int) ≤ i) : iget l i = 0 := by
  unfold iget
  rw [List.getD_eq_default]
  omega

/-! ## Fold/membership characterizations -/

theorem mem_foldl_filterPrepend (P : Int → Prop) [DecidablePred P]
    (l : List Int) (acc : List Int) (x : Int) :
    (x ∈ l.foldl (fun acc v => if P v then v :: acc else acc) acc) ↔
      x ∈ acc ∨ (x ∈ l ∧ P x) := by
  induction l generalizing acc with
  | nil => simp
  | cons hd t ih =>
    simp only [List.foldl_cons]
    rw [ih]
    by_cases h : P hd
    · rw [if_pos h]
      simp only [List.mem_cons]
      constructor
      · rintro ((rfl | h1) | h1)
        · exact Or.inr ⟨Or.inl rfl, h⟩
        · exact Or.inl h1
        · exact Or.inr ⟨Or.inr h1.1, h1.2⟩
      · rintro (h1 | ⟨(rfl | h1), h2⟩)
        · exact Or.inl (Or.inr h1)
        · exact Or.inl (Or.inl rfl)
        · exact Or.inr ⟨h1, h2⟩
    · rw [if_neg h]
      simp only [List.mem_cons]
      constructor
      · rintro (h1 | h1)
        · exact Or.inl h1
        · exact Or.inr ⟨Or.inr h1.1, h1.2⟩
      · rintro (h1 | ⟨(rfl | h1), h2⟩)
        · exact Or.inl h1
        · exact absurd h2 h
        · exact Or.inr ⟨h1, h2⟩

theorem mhas_iff_mem_keys (m : EMap) (e : GEdge) :
    mhas m e = true ↔ e ∈ m.map Prod.fst := by
  induction m with
  | nil => simp [mhas]
  | cons hd t ih =>
    obtain ⟨a, v⟩ := hd
    simp only [mhas, List.map_cons, List.mem_cons]
    by_cases h : a = e
    · rw [if_pos h]; simp [h.symm]
    · rw [if_neg h]
      rw [ih]
      constructor
      · exact Or.inr
      · rintro (h1 | h1)
        · exact absurd h1.symm h
        · exact h1

theorem mdel_of_mhas_false (m : EMap) (k : GEdge) (h : mhas m k = false) :
    mdel m k = m := by
  induction m with
  | nil => rfl
  | cons hd t ih =>
    obtain ⟨a, v⟩ := hd
    simp only [mhas] at h
    simp only [mdel]
    by_cases h1 : a = k
    · rw [if_pos h1] at h; simp at h
    · rw [if_neg h1] at h
      rw [if_neg h1, ih h]

theorem mdel_sublist (m : EMap) (k : GEdge) : (mdel m k).Sublist m := by
  induction m with
  | nil => exact List.Sublist.refl []
  | cons hd t ih =>
    obtain ⟨a, v⟩ := hd
    simp only [mdel]
    by_cases h1 : a = k
    · rw [if_pos h1]; exact ih.cons _
    · rw [if_neg h1]; exact ih.cons₂ _

theorem keysND_mdel (m : EMap) (k : GEdge) (h : keysND m) : keysND (mdel m k) :=
  ((mdel_sublist m k).map Prod.fst).nodup h

theorem keysND_mset (m : EMap) (k : GEdge) (v : Int) (h : keysND m) :
    keysND (mset m k v) := by
  unfold keysND mset
  simp only [List.map_cons, List.nodup_cons]
  refine ⟨fun hm => ?_, keysND_mdel m k h⟩
  have := (mhas_iff_mem_keys (mdel m k) k).mpr hm
  rw [mhas_mdel_eq] at this
  exact absurd this (by simp)

theorem mem_mdel (m : EMap) (k : GEdge) (kv : GEdge × Int) (h : kv ∈ mdel m k) :
    kv ∈ m :=
  (mdel_sublist m k).mem h

theorem mem_mset (m : EMap) (k : GEdge) (v : Int) (kv : GEdge × Int)
    (h : kv ∈ mset m k v) : kv = (k, v) ∨ kv ∈ m := by
  rcases List.mem_cons.mp h with h1 | h1
  · exact Or.inl h1
  · exact Or.inr (mem_mdel m k kv h1)

/-- Entries whose target component never equals `v` contribute no inflow. -/
theorem inflow_eq_zero (m : EMap) (v : Int)
    (h : ∀ kv ∈ m, kv.1.2 ≠ v) : FlowNetwork.inflow m v = 0 := by
  induction m with
  | nil => rfl
  | cons hd t ih =>
    obtain ⟨a, x⟩ := hd
    simp only [FlowNetwork.inflow]
    rw [if_neg (h (a, x) (List.mem_cons_self _ _)),
      ih (fun kv hkv => h kv (List.mem_cons_of_mem _ hkv))]
    ring

/-- With unique keys, all of whose first components are `sourceID`, the
inflow into `v` is exactly the `(source, v)` entry. -/
theorem inflow_eq_mget_source (m : EMap) (v : Int) (hnd : keysND m)
    (hsrc : ∀ kv ∈ m, kv.1.1 = sourceID) :
    FlowNetwork.inflow m v = mget m (sourceID, v) := by
  induction m with
  | nil => rfl
  | cons hd t ih =>
    obtain ⟨⟨a1, a2⟩, x⟩ := hd
    have ha : a1 = sourceID := hsrc ((a1, a2), x) (List.mem_cons_self _ _)
    have hndt : keysND t := (List.nodup_cons.mp hnd).2
    have hna : (a1, a2) ∉ t.map Prod.fst := (List.nodup_cons.mp hnd).1
    have hsrct : ∀ kv ∈ t, kv.1.1 = sourceID :=
      fun kv hkv => hsrc kv (List.mem_cons_of_mem _ hkv)
    simp only [FlowNetwork.inflow, mget]
    by_cases h : a2 = v
    · subst h; subst ha
      rw [if_pos rfl, if_pos rfl]
      have ht0 : FlowNetwork.inflow t a2 = 0 := by
        refine inflow_eq_zero t a2 ?_
        rintro ⟨⟨k1, k2⟩, y⟩ hkv hc
        have hk1 : k1 = sourceID := hsrct ((k1, k2), y) hkv
        simp only at hc
        subst hc; subst hk1
        exact hna (List.mem_map_of_mem Prod.fst hkv)
      rw [ht0]
      ring
    · have hak : ((a1, a2) : GEdge) ≠ (sourceID, v) := by
        intro hc
        exact h (congrArg Prod.snd hc)
      rw [if_neg (by simpa using h), if_neg hak, ih hndt hsrct]
      ring

/-- Entries whose source component never equals `v` contribute no outflow. -/
theorem outflowFrom_eq_zero (m : EMap) (v : Int)
    (h : ∀ kv ∈ m, kv.1.1 ≠ v) : FlowNetwork.outflowFrom m v = 0 := by
  induction m with
  | nil => rfl
  | cons hd t ih =>
    obtain ⟨a, x⟩ := hd
    simp only [FlowNetwork.outflowFrom]
    rw [if_neg (h (a, x) (List.mem_cons_self _ _)),
      ih (fun kv hkv => h kv (List.mem_cons_of_mem _ hkv))]
    ring

/-! ## Preflow sums under map updates -/

theorem keysND_tail (k : GEdge) (x : Int) (t : EMap) (h : keysND ((k, x) :: t)) :
    keysND t ∧ mhas t k = false := by
  unfold keysND at h ⊢
  simp only [List.map_cons, List.nodup_cons] at h
  refine ⟨h.2, ?_⟩
  by_cases hh : mhas t k = true
  · exact absurd ((mhas_iff_mem_keys t k).mp hh) h.1
  · simpa using hh

theorem inflow_mdel (m : EMap) (e : GEdge) (v : Int) (hnd : keysND m) :
    FlowNetwork.inflow (mdel m e) v =
      FlowNetwork.inflow m v - (if e.2 = v then mget m e else 0) := by
  induction m with
  | nil => simp [mdel, FlowNetwork.inflow, mget]
  | cons hd t ih =>
    obtain ⟨k, x⟩ := hd
    obtain ⟨hnd', hk⟩ := keysND_tail k x t hnd
    simp only [mdel, FlowNetwork.inflow, mget]
    by_cases h1 : k = e
    · subst h1
      rw [if_pos rfl, if_pos rfl, mdel_of_mhas_false t k hk]
      split_ifs <;> omega
    · rw [if_neg h1, if_neg h1]
      simp only [FlowNetwork.inflow]
      rw [ih hnd']
      split_ifs <;> omega

theorem outflowFrom_mdel (m : EMap) (e : GEdge) (v : Int) (hnd : keysND m) :
    FlowNetwork.outflowFrom (mdel m e) v =
      FlowNetwork.outflowFrom m v - (if e.1 = v then mget m e else 0) := by
  induction m with
  | nil => simp [mdel, FlowNetwork.outflowFrom, mget]
  | cons hd t ih =>
    obtain ⟨k, x⟩ := hd
    obtain ⟨hnd', hk⟩ := keysND_tail k x t hnd
    simp only [mdel, FlowNetwork.outflowFrom, mget]
    by_cases h1 : k = e
    · subst h1
      rw [if_pos rfl, if_pos rfl, mdel_of_mhas_false t k hk]
      split_ifs <;> omega
    · rw [if_neg h1, if_neg h1]
      simp only [FlowNetwork.outflowFrom]
      rw [ih hnd']
      split_ifs <;> omega

theorem inflow_mset (m : EMap) (a b x v : Int) (hnd : keysND m) :
    FlowNetwork.inflow (mset m (a, b) x) v =
      FlowNetwork.inflow m v + (if b = v then x - mget m (a, b) else 0) := by
  simp only [mset, FlowNetwork.inflow]
  rw [inflow_mdel m (a, b) v hnd]
  split_ifs <;> omega

theorem outflowFrom_mset (m : EMap) (a b x v : Int) (hnd : keysND m) :
    FlowNetwork.outflowFrom (mset m (a, b) x) v =
      FlowNetwork.outflowFrom m v + (if a = v then x - mget m (a, b) else 0) := by
  simp only [mset, FlowNetwork.outflowFrom]
  rw [outflowFrom_mdel m (a, b) v hnd]
  split_ifs <;> omega

theorem inflow_zero_of (m : EMap) (hnd : keysND m)
    (h : ∀ e, mget m e = 0) (v : Int) : FlowNetwork.inflow m v = 0 := by
  induction m with
  | nil => rfl
  | cons hd t ih =>
    obtain ⟨k, x⟩ := hd
    obtain ⟨hnd', hk⟩ := keysND_tail k x t hnd
    have hx : x = 0 := by
      have := h k
      simp only [mget, if_pos rfl] at this
      exact this
    have ht : ∀ e, mget t e = 0 := by
      intro e
      by_cases h1 : k = e
      · rw [← h1]
        exact mget_eq_zero_of_mhas_false t k hk
      · have := h e
        simp only [mget, if_neg h1] at this
        exact this
    simp only [FlowNetwork.inflow, ih hnd' ht, hx]
    split_ifs <;> simp

/-- `inflow` only depends on the extension of the (unique-key) map. -/
theorem inflow_congr (m1 m2 : EMap) (h1 : keysND m1) (h2 : keysND m2)
    (hext : ∀ e, mget m1 e = mget m2 e) (v : Int) :
    FlowNetwork.inflow m1 v = FlowNetwork.inflow m2 v := by
  induction m1 generalizing m2 with
  | nil =>
    rw [inflow_zero_of m2 h2 (fun e => by rw [← hext e]; rfl) v]
    rfl
  | cons hd t ih =>
    obtain ⟨k, x⟩ := hd
    obtain ⟨hnd', hk⟩ := keysND_tail k x t h1
    have hx : mget m2 k = x := by
      rw [← hext k]
      simp [mget]
    have hdel : FlowNetwork.inflow (mdel m2 k) v =
        FlowNetwork.inflow m2 v - (if k.2 = v then x else 0) := by
      rw [inflow_mdel m2 k v h2, hx]
    have hext' : ∀ e, mget t e = mget (mdel m2 k) e := by
      intro e
      by_cases he : k = e
      · subst he
        rw [mget_eq_zero_of_mhas_false t k hk,
          mget_eq_zero_of_mhas_false (mdel m2 k) k (mhas_mdel_eq m2 k)]
      · rw [mget_mdel_ne m2 k e he, ← hext e]
        simp only [mget, if_neg he]
    rw [show FlowNetwork.inflow ((k, x) :: t) v
        = (if k.2 = v then x else 0) + FlowNetwork.inflow t v from rfl]
    rw [ih (mdel m2 k) hnd' (keysND_mdel m2 k h2) hext', hdel]
    split_ifs <;> omega

/-- `Outflow` written with an accumulator equals the inflow at the sink. -/
theorem outflow_foldl (m : EMap) (acc : Int) :
    m.foldl (fun acc kv => if kv.1.2 = sinkID then acc + kv.2 else acc) acc
      = acc + FlowNetwork.inflow m sinkID := by
  induction m generalizing acc with
  | nil => simp [FlowNetwork.inflow]
  | cons hd t ih =>
    obtain ⟨k, x⟩ := hd
    simp only [List.foldl_cons, FlowNetwork.inflow]
    rw [ih]
    split_ifs <;> omega

theorem Outflow_eq_inflow_sink (g : FlowNetwork) :
    g.Outflow = FlowNetwork.inflow g.preflow sinkID := by
  unfold FlowNetwork.Outflow
  rw [outflow_foldl]
  omega

/-! ## Characterizing the pieces of `reset` -/

theorem mem_defaultOrder (n x : Int) (hn : 0 ≤ n) :
    x ∈ FlowNetwork.defaultOrder n ↔ 2 ≤ x ∧ x < n + 2 := by
  unfold FlowNetwork.defaultOrder
  constructor
  · intro hx
    obtain ⟨i, hi, hix⟩ := List.mem_map.mp hx
    rw [List.mem_range] at hi
    constructor <;> omega
  · rintro ⟨h1, h2⟩
    exact List.mem_map.mpr
      ⟨(n + 1 - x).toNat, List.mem_range.mpr (by omega), by omega⟩

theorem mem_userIDs (g : Flownet.FlowNetwork) (x : Int) :
    x ∈ g.userIDs ↔ 2 ≤ x ∧ x < g.numNodes + 2 ∧ 0 < g.numNodes := by
  unfold FlowNetwork.userIDs
  constructor
  · intro hx
    obtain ⟨i, hi, hix⟩ := List.mem_map.mp hx
    rw [List.mem_range] at hi
    refine ⟨by omega, by omega, by omega⟩
  · rintro ⟨h1, h2, h3⟩
    exact List.mem_map.mpr
      ⟨(x - 2).toNat, List.mem_range.mpr (by omega), by omega⟩

theorem userIDs_nodup (g : Flownet.FlowNetwork) : g.userIDs.Nodup := by
  unfold FlowNetwork.userIDs
  refine List.Nodup.map ?_ (List.nodup_range _)
  intro a b hab
  simp only at hab
  omega

theorem labFold_length (l : List Int) (n : Nat) :
    ((List.range n).foldl (fun acc (i : Nat) => iset acc ((i : Int) + 2) 0) l).length
      = l.length := by
  induction n generalizing l with
  | zero => rfl
  | succ k ih =>
    rw [List.range_succ, List.foldl_append, List.foldl_cons, List.foldl_nil]
    rw [length_iset, ih]

theorem labFold_iget (l : List Int) (n : Nat) (j : Int)
    (hlen : (n : Int) + 2 ≤ (l.length : Int)) :
    iget ((List.range n).foldl (fun acc (i : Nat) => iset acc ((i : Int) + 2) 0) l) j
      = if 2 ≤ j ∧ j < (n : Int) + 2 then 0 else iget l j := by
  induction n generalizing l with
  | zero =>
    simp only [List.range_zero, List.foldl_nil]
    rw [if_neg (by omega)]
  | succ k ih =>
    rw [List.range_succ, List.foldl_append, List.foldl_cons, List.foldl_nil]
    by_cases hj : j = (k : Int) + 2
    · subst hj
      rw [iget_iset_eq _ _ _ (by omega) (by rw [labFold_length]; omega)]
      rw [if_pos (by omega)]
    · rw [iget_iset_ne' _ _ _ _ (by omega)]
      rw [ih l (by omega)]
      by_cases h2 : 2 ≤ j ∧ j < (k : Int) + 2
      · rw [if_pos h2, if_pos (by omega)]
      · rw [if_neg h2, if_neg (by omega)]

theorem mem_buildVisit (adj : List (List Int)) (ord : List Int) (u x : Int) :
    x ∈ FlowNetwork.buildVisit adj ord u ↔
      x ∈ ord ++ [sourceID, sinkID] ∧ (x ∈ aget adj u ∨ u ∈ aget adj x) := by
  unfold FlowNetwork.buildVisit
  rw [mem_foldl_filterPrepend (fun v => v ∈ aget adj u ∨ u ∈ aget adj v)
    (ord ++ [sourceID, sinkID]) [] x]
  simp

theorem buildVisitAll_getD (adj : List (List Int)) (ord : List Int) (i : Nat) :
    (FlowNetwork.buildVisitAll adj ord).getD i [] =
      if i < adj.length then FlowNetwork.buildVisit adj ord (i : Int) else [] := by
  unfold FlowNetwork.buildVisitAll
  by_cases h : i < adj.length
  · rw [if_pos h, List.getD_eq_getElem _ _ (by simpa using h)]
    simp
  · rw [if_neg h, List.getD_eq_default]
    simpa using h

theorem outgoingCapacity_congr (g g' : Flownet.FlowNetwork) (w : Int)
    (hadj : g'.adjacencyList = g.adjacencyList)
    (hcap : ∀ v : Int, mget g'.capacity (w, v) = mget g.capacity (w, v)) :
    g'.outgoingCapacity w = g.outgoingCapacity w := by
  unfold FlowNetwork.outgoingCapacity
  rw [show aget g'.adjacencyList w = aget g.adjacencyList w from by rw [hadj]]
  generalize aget g.adjacencyList w = l
  induction l with
  | nil => rfl
  | cons hd t ih =>
    simp only [List.foldl_cons]
    by_cases h : hd = sinkID ∨ hd = sourceID
    · rw [if_pos h, if_pos h]
      exact ih
    · rw [if_neg h, if_neg h, hcap hd]
      -- the two folds now share the same accumulator; fold congruence
      clear ih
      generalize 0 + mget g.capacity (w, hd) = acc
      induction t generalizing acc with
      | nil => rfl
      | cons hd2 t2 ih2 =>
        simp only [List.foldl_cons]
        by_cases h2 : hd2 = sinkID ∨ hd2 = sourceID
        · rw [if_pos h2, if_pos h2]
          exact ih2 acc
        · rw [if_neg h2, if_neg h2, hcap hd2]
          exact ih2 _

theorem srcFold_frame (us : List Int) (g : Flownet.FlowNetwork) (t : Int) :
    (us.foldl FlowNetwork.resetStep (g, t)).1.numNodes = g.numNodes ∧
    (us.foldl FlowNetwork.resetStep (g, t)).1.nodeOrder = g.nodeOrder ∧
    (us.foldl FlowNetwork.resetStep (g, t)).1.adjacencyList = g.adjacencyList ∧
    (us.foldl FlowNetwork.resetStep (g, t)).1.adjacencyVisitList
      = g.adjacencyVisitList ∧
    (us.foldl FlowNetwork.resetStep (g, t)).1.label = g.label ∧
    (us.foldl FlowNetwork.resetStep (g, t)).1.seen = g.seen ∧
    (us.foldl FlowNetwork.resetStep (g, t)).1.manualSource = g.manualSource ∧
    (us.foldl FlowNetwork.resetStep (g, t)).1.manualSink = g.manualSink ∧
    (us.foldl FlowNetwork.resetStep (g, t)).1.excess.length = g.excess.length := by
  induction us generalizing g t with
  | nil => exact ⟨rfl, rfl, rfl, rfl, rfl, rfl, rfl, rfl, rfl⟩
  | cons u us ih =>
    rw [List.foldl_cons]
    have hstep : (FlowNetwork.resetStep (g, t) u).1.numNodes = g.numNodes ∧
        (FlowNetwork.resetStep (g, t) u).1.nodeOrder = g.nodeOrder ∧
        (FlowNetwork.resetStep (g, t) u).1.adjacencyList = g.adjacencyList ∧
        (FlowNetwork.resetStep (g, t) u).1.adjacencyVisitList
          = g.adjacencyVisitList ∧
        (FlowNetwork.resetStep (g, t) u).1.label = g.label ∧
        (FlowNetwork.resetStep (g, t) u).1.seen = g.seen ∧
        (FlowNetwork.resetStep (g, t) u).1.manualSource = g.manualSource ∧
        (FlowNetwork.resetStep (g, t) u).1.manualSink = g.manualSink ∧
        (FlowNetwork.resetStep (g, t) u).1.excess.length = g.excess.length := by
      unfold FlowNetwork.resetStep
      by_cases h : mhas g.capacity (sourceID, u) = true
      · rw [if_pos h]
        refine ⟨rfl, rfl, rfl, rfl, rfl, rfl, rfl, rfl, ?_⟩
        exact length_iset _ _ _
      · rw [if_neg h]
        exact ⟨rfl, rfl, rfl, rfl, rfl, rfl, rfl, rfl, rfl⟩
    obtain ⟨s1, s2, s3, s4, s5, s6, s7, s8, s9⟩ := hstep
    obtain ⟨i1, i2, i3, i4, i5, i6, i7, i8, i9⟩ :=
      ih (FlowNetwork.resetStep (g, t) u).1 (FlowNetwork.resetStep (g, t) u).2
    rw [show FlowNetwork.resetStep (g, t) u
        = ((FlowNetwork.resetStep (g, t) u).1, (FlowNetwork.resetStep (g, t) u).2)
      from rfl]
    exact ⟨i1.trans s1, i2.trans s2, i3.trans s3, i4.trans s4, i5.trans s5,
      i6.trans s6, i7.trans s7, i8.trans s8, i9.trans s9⟩

theorem srcFold_spec (us : List Int) (g : Flownet.FlowNetwork) (t : Int)
    (h2 : ∀ u ∈ us, 2 ≤ u) (hnd : us.Nodup)
    (hlen : ∀ u ∈ us, u < (g.excess.length : Int)) :
    (∀ e : GEdge, mget (us.foldl FlowNetwork.resetStep (g, t)).1.capacity e =
      if e.1 = sourceID ∧ e.2 ∈ us ∧ mhas g.capacity (sourceID, e.2) = true
      then g.outgoingCapacity e.2 else mget g.capacity e) ∧
    (∀ e : GEdge, mhas (us.foldl FlowNetwork.resetStep (g, t)).1.capacity e
      = mhas g.capacity e) ∧
    (∀ e : GEdge, mget (us.foldl FlowNetwork.resetStep (g, t)).1.preflow e =
      if e.1 = sourceID ∧ e.2 ∈ us ∧ mhas g.capacity (sourceID, e.2) = true
      then g.outgoingCapacity e.2 else mget g.preflow e) ∧
    (∀ w : Int, iget (us.foldl FlowNetwork.resetStep (g, t)).1.excess w =
      if w ∈ us ∧ mhas g.capacity (sourceID, w) = true
      then g.outgoingCapacity w else iget g.excess w) ∧
    (∀ kv ∈ (us.foldl FlowNetwork.resetStep (g, t)).1.preflow,
      kv.1.1 = sourceID ∨ kv ∈ g.preflow) ∧
    (keysND g.preflow → keysND (us.foldl FlowNetwork.resetStep (g, t)).1.preflow) := by
  induction us generalizing g t with
  | nil =>
    refine ⟨by simp, by simp, by simp, by simp, fun kv hkv => Or.inr hkv, fun h => h⟩
  | cons u us ih =>
    have hu2 : 2 ≤ u := h2 u (List.mem_cons_self _ _)
    have hulen : u < (g.excess.length : Int) := hlen u (List.mem_cons_self _ _)
    have hndus : us.Nodup := (List.nodup_cons.mp hnd).2
    have hnus : u ∉ us := (List.nodup_cons.mp hnd).1
    rw [List.foldl_cons]
    by_cases h : mhas g.capacity (sourceID, u) = true
    · -- saturating step
      have hstep : FlowNetwork.resetStep (g, t) u =
          ({ g with
              capacity := mset g.capacity (sourceID, u) (g.outgoingCapacity u)
              excess := iset g.excess u (g.outgoingCapacity u)
              preflow := mset g.preflow (sourceID, u) (g.outgoingCapacity u) },
           t + g.outgoingCapacity u) := by
        unfold FlowNetwork.resetStep
        rw [if_pos h]
      rw [hstep]
      set g' : Flownet.FlowNetwork :=
        { g with
          capacity := mset g.capacity (sourceID, u) (g.outgoingCapacity u)
          excess := iset g.excess u (g.outgoingCapacity u)
          preflow := mset g.preflow (sourceID, u) (g.outgoingCapacity u) } with hg'
      have hmhas : ∀ e : GEdge, mhas g'.capacity e = mhas g.capacity e := by
        intro e
        rw [hg']
        show mhas (mset g.capacity (sourceID, u) (g.outgoingCapacity u)) e = _
        rw [mhas_mset]
        by_cases he : ((sourceID, u) : GEdge) = e
        · rw [if_pos he, ← he, h]
        · rw [if_neg he]
      have hout : ∀ w : Int, 2 ≤ w → g'.outgoingCapacity w = g.outgoingCapacity w := by
        intro w hw
        refine outgoingCapacity_congr g g' w rfl ?_
        intro v
        rw [hg']
        show mget (mset g.capacity (sourceID, u) (g.outgoingCapacity u)) (w, v) = _
        rw [mget_mset, if_neg]
        intro hc
        have : sourceID = w := congrArg Prod.fst hc
        simp only [sourceID] at this
        omega
      obtain ⟨iA, iB, iC, iD, iE, iF⟩ := ih g' (t + g.outgoingCapacity u)
        (fun v hv => h2 v (List.mem_cons_of_mem _ hv)) hndus
        (fun v hv => by
          have : g'.excess.length = g.excess.length := by
            rw [hg']; exact length_iset _ _ _
          rw [this]; exact hlen v (List.mem_cons_of_mem _ hv))
      refine ⟨?_, ?_, ?_, ?_, ?_, ?_⟩
      · -- capacity characterization
        rintro ⟨e1, e2⟩
        rw [iA (e1, e2)]
        simp only [hmhas]
        by_cases c1 : e1 = sourceID ∧ e2 ∈ us ∧ mhas g.capacity (sourceID, e2) = true
        · rw [if_pos c1, if_pos ⟨c1.1, List.mem_cons_of_mem _ c1.2.1, c1.2.2⟩]
          exact hout e2 (h2 e2 (List.mem_cons_of_mem _ c1.2.1))
        · rw [if_neg c1]
          have hcap' : mget g'.capacity (e1, e2)
              = if ((sourceID, u) : GEdge) = (e1, e2)
                then g.outgoingCapacity u else mget g.capacity (e1, e2) := by
            rw [hg']
            exact mget_mset _ _ _ _
          rw [hcap']
          by_cases he : ((sourceID, u) : GEdge) = (e1, e2)
          · rw [if_pos he]
            have he1 : e1 = sourceID := (congrArg Prod.fst he).symm
            have he2 : e2 = u := (congrArg Prod.snd he).symm
            rw [if_pos ⟨he1, by rw [he2]; exact List.mem_cons_self _ _,
              by rw [he2]; exact h⟩, he2]
          · rw [if_neg he, if_neg]
            rintro ⟨d1, d2, d3⟩
            rcases List.mem_cons.mp d2 with d2 | d2
            · exact he (by rw [d1, d2])
            · exact c1 ⟨d1, d2, d3⟩
      · intro e
        rw [iB e, hmhas e]
      · -- preflow characterization
        rintro ⟨e1, e2⟩
        rw [iC (e1, e2)]
        simp only [hmhas]
        by_cases c1 : e1 = sourceID ∧ e2 ∈ us ∧ mhas g.capacity (sourceID, e2) = true
        · rw [if_pos c1, if_pos ⟨c1.1, List.mem_cons_of_mem _ c1.2.1, c1.2.2⟩]
          exact hout e2 (h2 e2 (List.mem_cons_of_mem _ c1.2.1))
        · rw [if_neg c1]
          have hpf' : mget g'.preflow (e1, e2)
              = if ((sourceID, u) : GEdge) = (e1, e2)
                then g.outgoingCapacity u else mget g.preflow (e1, e2) := by
            rw [hg']
            exact mget_mset _ _ _ _
          rw [hpf']
          by_cases he : ((sourceID, u) : GEdge) = (e1, e2)
          · rw [if_pos he]
            have he1 : e1 = sourceID := (congrArg Prod.fst he).symm
            have he2 : e2 = u := (congrArg Prod.snd he).symm
            rw [if_pos ⟨he1, by rw [he2]; exact List.mem_cons_self _ _,
              by rw [he2]; exact h⟩, he2]
          · rw [if_neg he, if_neg]
            rintro ⟨d1, d2, d3⟩
            rcases List.mem_cons.mp d2 with d2 | d2
            · exact he (by rw [d1, d2])
            · exact c1 ⟨d1, d2, d3⟩
      · -- excess characterization
        intro w
        rw [iD w]
        simp only [hmhas]
        by_cases c1 : w ∈ us ∧ mhas g.capacity (sourceID, w) = true
        · rw [if_pos c1, if_pos ⟨List.mem_cons_of_mem _ c1.1, c1.2⟩]
          exact hout w (h2 w (List.mem_cons_of_mem _ c1.1))
        · rw [if_neg c1]
          have hex' : iget g'.excess w
              = if w = u then g.outgoingCapacity u else iget g.excess w := by
            rw [hg']
            by_cases he : w = u
            · rw [if_pos he, he]
              exact iget_iset_eq _ _ _ (by omega) hulen
            · rw [if_neg he]
              exact iget_iset_ne' _ _ _ _ (by omega)
          rw [hex']
          by_cases he : w = u
          · rw [if_pos he, if_pos ⟨by rw [he]; exact List.mem_cons_self _ _,
              by rw [he]; exact h⟩, he]
          · rw [if_neg he, if_neg]
            rintro ⟨d1, d2⟩
            rcases List.mem_cons.mp d1 with d1 | d1
            · exact he d1
            · exact c1 ⟨d1, d2⟩
      · intro kv hkv
        rcases iE kv hkv with h1 | h1
        · exact Or.inl h1
        · have : kv ∈ g'.preflow := h1
          rw [hg'] at this
          rcases mem_mset _ _ _ _ this with h3 | h3
          · exact Or.inl (by rw [h3])
          · exact Or.inr h3
      · intro hk
        refine iF ?_
        rw [hg']
        exact keysND_mset _ _ _ hk
    · -- skipping step
      have hstep : FlowNetwork.resetStep (g, t) u = (g, t) := by
        unfold FlowNetwork.resetStep
        rw [if_neg h]
      rw [hstep]
      obtain ⟨iA, iB, iC, iD, iE, iF⟩ := ih g t
        (fun v hv => h2 v (List.mem_cons_of_mem _ hv)) hndus
        (fun v hv => hlen v (List.mem_cons_of_mem _ hv))
      have hcond : ∀ (x : Int), (x ∈ (u :: us) ∧ mhas g.capacity (sourceID, x) = true)
          ↔ (x ∈ us ∧ mhas g.capacity (sourceID, x) = true) := by
        intro x
        constructor
        · rintro ⟨hx, hh⟩
          rcases List.mem_cons.mp hx with hx | hx
          · rw [hx] at hh; exact absurd hh h
          · exact ⟨hx, hh⟩
        · rintro ⟨hx, hh⟩
          exact ⟨List.mem_cons_of_mem _ hx, hh⟩
      refine ⟨?_, iB, ?_, ?_, iE, iF⟩
      · rintro ⟨e1, e2⟩
        rw [iA (e1, e2)]
        by_cases c1 : e1 = sourceID ∧ e2 ∈ us ∧ mhas g.capacity (sourceID, e2) = true
        · rw [if_pos c1, if_pos ⟨c1.1, List.mem_cons_of_mem _ c1.2.1, c1.2.2⟩]
        · rw [if_neg c1, if_neg]
          rintro ⟨d1, d2, d3⟩
          exact c1 ⟨d1, ((hcond e2).mp ⟨d2, d3⟩).1, d3⟩
      · rintro ⟨e1, e2⟩
        rw [iC (e1, e2)]
        by_cases c1 : e1 = sourceID ∧ e2 ∈ us ∧ mhas g.capacity (sourceID, e2) = true
        · rw [if_pos c1, if_pos ⟨c1.1, List.mem_cons_of_mem _ c1.2.1, c1.2.2⟩]
        · rw [if_neg c1, if_neg]
          rintro ⟨d1, d2, d3⟩
          exact c1 ⟨d1, ((hcond e2).mp ⟨d2, d3⟩).1, d3⟩
      · intro w
        rw [iD w]
        by_cases c1 : w ∈ us ∧ mhas g.capacity (sourceID, w) = true
        · rw [if_pos c1, if_pos ((hcond w).mpr c1)]
        · rw [if_neg c1, if_neg (fun hc => c1 ((hcond w).mp hc))]

theorem outgoingCapacity_nonneg (g : Flownet.FlowNetwork) (w : Int)
    (hcap : ∀ e : GEdge, 0 ≤ mget g.capacity e) :
    0 ≤ g.outgoingCapacity w := by
  unfold FlowNetwork.outgoingCapacity
  generalize aget g.adjacencyList w = l
  have : ∀ (acc : Int), 0 ≤ acc →
      0 ≤ l.foldl (fun acc v => if v = sinkID ∨ v = sourceID then acc
        else acc + mget g.capacity (w, v)) acc := by
    induction l with
    | nil => exact fun acc h => h
    | cons hd t ih =>
      intro acc hacc
      simp only [List.foldl_cons]
      by_cases h : hd = sinkID ∨ hd = sourceID
      · rw [if_pos h]; exact ih acc hacc
      · rw [if_neg h]
        exact ih _ (by have := hcap (w, hd); omega)
  exact this 0 le_rfl

theorem capNonneg_of_entries (m : EMap) (h : ∀ kv ∈ m, 0 ≤ kv.2) (e : GEdge) :
    0 ≤ mget m e := by
  rcases mget_mem_or_zero m e with h1 | h1
  · exact h (e, mget m e) h1
  · omega

theorem exists_entry_of_mhas (m : EMap) (e : GEdge) (h : mhas m e = true) :
    ∃ v, (e, v) ∈ m := by
  have := (mhas_iff_mem_keys m e).mp h
  obtain ⟨kv, hkv, hk⟩ := List.mem_map.mp this
  refine ⟨kv.2, ?_⟩
  rw [← hk]
  exact hkv

theorem iget_toNat (l : List Int) (j : Int) :
    iget l j = iget l ((j.toNat : Int)) := by
  unfold iget
  rw [Int.toNat_natCast]

theorem iget_eq_zero_of_drop (l : List Int) (j : Int)
    (hzero : ∀ x ∈ l.drop 2, x = 0) (hj : 2 ≤ j) (hlen : j < (l.length : Int)) :
    iget l j = 0 := by
  unfold iget
  have hjn : j.toNat < l.length := by omega
  rw [List.getD_eq_getElem l 0 hjn]
  refine hzero _ ?_
  have h2 : j.toNat - 2 < (l.drop 2).length := by
    rw [List.length_drop]; omega
  have hlt : 2 + (j.toNat - 2) < l.length := by omega
  have h3 : l[2 + (j.toNat - 2)] = (l.drop 2)[j.toNat - 2] :=
    List.getElem_drop' l hlt
  have h4 : l[j.toNat] = l[2 + (j.toNat - 2)] := by
    congr 1
    omega
  rw [h4, h3]
  exact List.getElem_mem _

theorem enum_mem_of_get (l : List (List Int)) (i : Nat) (h : i < l.length) :
    (i, l[i]) ∈ l.enum := by
  rw [List.mem_enum_iff_getElem?]
  exact List.getElem?_eq_getElem h

theorem resetLabels_length (g : Flownet.FlowNetwork) :
    (FlowNetwork.resetLabels g).length = g.label.length := by
  unfold FlowNetwork.resetLabels
  rw [labFold_length, length_iset, length_iset]

theorem resetLabels_iget (g : Flownet.FlowNetwork)
    (hlen : (g.label.length : Int) = g.numNodes + 2) (hn : 0 ≤ g.numNodes)
    (j : Int) :
    iget (FlowNetwork.resetLabels g) j =
      if j.toNat = 0 then g.numNodes + 2 else 0 := by
  rw [iget_toNat]
  unfold FlowNetwork.resetLabels
  set j' : Int := (j.toNat : Int) with hj'
  have hj0 : 0 ≤ j' := by omega
  have hl0 : ((iset (iset g.label sourceID (g.numNodes + 2)) sinkID 0).length : Int)
      = g.numNodes + 2 := by
    rw [length_iset, length_iset]; exact hlen
  rw [labFold_iget _ _ _ (by rw [hl0]; omega)]
  by_cases h2 : 2 ≤ j' ∧ j' < (g.numNodes.toNat : Int) + 2
  · rw [if_pos h2, if_neg (by omega)]
  · rw [if_neg h2]
    by_cases hc0 : j' = 0
    · rw [if_pos (by omega)]
      rw [hc0]
      rw [iget_iset_ne' _ _ _ _ (by simp [sinkID, sourceID])]
      exact iget_iset_eq _ _ _ (by simp [sourceID]) (by simp [sourceID]; omega)
    · rw [if_neg (by omega)]
      by_cases hc1 : j' = 1
      · rw [hc1]
        exact iget_iset_eq _ _ _ (by simp [sinkID]) (by simp [sinkID]; rw [length_iset]; omega)
      · -- j' is at least numNodes + 2: out of range
        have : (g.numNodes + 2) ≤ j' := by omega
        exact iget_out_of_range _ _ (by rw [hl0]; omega)

theorem reset_core (g : Flownet.FlowNetwork) (hn : 0 ≤ g.numNodes)
    (hexc : (g.excess.length : Int) = g.numNodes + 2) :
    (∀ e : GEdge, mget (FlowNetwork.reset g).capacity e =
      if e.1 = sourceID ∧ e.2 ∈ g.userIDs ∧ mhas g.capacity (sourceID, e.2) = true
      then g.outgoingCapacity e.2 else mget g.capacity e) ∧
    (∀ e : GEdge, mhas (FlowNetwork.reset g).capacity e = mhas g.capacity e) ∧
    (∀ e : GEdge, mget (FlowNetwork.reset g).preflow e =
      if e.1 = sourceID ∧ e.2 ∈ g.userIDs ∧ mhas g.capacity (sourceID, e.2) = true
      then g.outgoingCapacity e.2 else 0) ∧
    (∀ w : Int, 2 ≤ w → iget (FlowNetwork.reset g).excess w =
      if w ∈ g.userIDs ∧ mhas g.capacity (sourceID, w) = true
      then g.outgoingCapacity w else iget g.excess w) ∧
    (∀ kv ∈ (FlowNetwork.reset g).preflow, kv.1.1 = sourceID) ∧
    keysND (FlowNetwork.reset g).preflow := by
  have hfold := srcFold_spec g.userIDs (FlowNetwork.resetPre g) 0
    (fun u hu => ((mem_userIDs g u).mp hu).1)
    (userIDs_nodup g)
    (fun u hu => by
      have h1 := (mem_userIDs g u).mp hu
      show u < ((FlowNetwork.resetPre g).excess.length : Int)
      have hsame : (FlowNetwork.resetPre g).excess.length = g.excess.length := rfl
      rw [hsame]
      omega)
  obtain ⟨hA, hB, hC, hD, hE, hF⟩ := hfold
  refine ⟨?_, ?_, ?_, ?_, ?_, ?_⟩
  · exact fun e => hA e
  · exact fun e => hB e
  · exact fun e => hC e
  · intro w hw
    have hred : iget (FlowNetwork.reset g).excess w =
        iget (g.userIDs.foldl FlowNetwork.resetStep (FlowNetwork.resetPre g, 0)).1.excess w := by
      show iget (iset _ sourceID _) w = _
      exact iget_iset_ne' _ _ _ _ (by simp only [sourceID]; omega)
    rw [hred]
    exact hD w
  · intro kv hkv
    rcases hE kv hkv with h1 | h1
    · exact h1
    · exact absurd h1 (by simp [FlowNetwork.resetPre])
  · exact hF (by simp [FlowNetwork.resetPre, keysND])

theorem reset_frame (g : Flownet.FlowNetwork) :
    (FlowNetwork.reset g).numNodes = g.numNodes ∧
    (FlowNetwork.reset g).nodeOrder = FlowNetwork.resetOrder g ∧
    (FlowNetwork.reset g).adjacencyList = g.adjacencyList ∧
    (FlowNetwork.reset g).adjacencyVisitList
      = FlowNetwork.buildVisitAll g.adjacencyList (FlowNetwork.resetOrder g) ∧
    (FlowNetwork.reset g).label = FlowNetwork.resetLabels g ∧
    (FlowNetwork.reset g).seen = g.seen ∧
    (FlowNetwork.reset g).excess.length = g.excess.length := by
  obtain ⟨f1, f2, f3, f4, f5, f6, f7, f8, f9⟩ :=
    srcFold_frame g.userIDs (FlowNetwork.resetPre g) 0
  refine ⟨f1, f2, f3, f4, f5, f6, ?_⟩
  show (iset (g.userIDs.foldl FlowNetwork.resetStep
    (FlowNetwork.resetPre g, 0)).1.excess sourceID _).length = _
  rw [length_iset]
  exact f9

theorem visit_reset_mem (g : Flownet.FlowNetwork) (u x : Int) :
    x ∈ (FlowNetwork.reset g).visit u ↔
      u.toNat < g.adjacencyList.length ∧
      (x ∈ (FlowNetwork.resetOrder g ++ [sourceID, sinkID]) ∧
        (x ∈ aget g.adjacencyList ((u.toNat : Int))
          ∨ ((u.toNat : Int)) ∈ aget g.adjacencyList x)) := by
  unfold FlowNetwork.visit
  rw [(reset_frame g).2.2.2.1, buildVisitAll_getD]
  by_cases h : u.toNat < g.adjacencyList.length
  · rw [if_pos h, mem_buildVisit]
    simp [h]
  · rw [if_neg h]
    simp [h]

theorem resetOrder_mem (g : Flownet.FlowNetwork) (hn : 0 ≤ g.numNodes)
    (hord : (g.nodeOrder.length : Int) = g.numNodes →
      (∀ x ∈ g.nodeOrder, 2 ≤ x ∧ x < g.numNodes + 2) ∧
      (∀ i ∈ List.range g.numNodes.toNat, ((i : Int) + 2) ∈ g.nodeOrder)) :
    (∀ x ∈ FlowNetwork.resetOrder g, 2 ≤ x ∧ x < g.numNodes + 2) ∧
    (∀ w : Int, 2 ≤ w → w < g.numNodes + 2 → w ∈ FlowNetwork.resetOrder g) := by
  unfold FlowNetwork.resetOrder
  by_cases h : (g.nodeOrder.length : Int) ≠ g.numNodes
  · rw [if_pos h]
    exact ⟨fun x hx => (mem_defaultOrder _ _ hn).mp hx,
           fun w h1 h2 => (mem_defaultOrder _ _ hn).mpr ⟨h1, h2⟩⟩
  · rw [if_neg h]
    push_neg at h
    obtain ⟨hA, hB⟩ := hord h
    refine ⟨hA, fun w h1 h2 => ?_⟩
    have := hB (w - 2).toNat (List.mem_range.mpr (by omega))
    rwa [show ((((w - 2).toNat) : Int) + 2) = w from by omega] at this

theorem resetOrder_nodup (g : Flownet.FlowNetwork) (hn : 0 ≤ g.numNodes)
    (hord : (g.nodeOrder.length : Int) = g.numNodes →
      (∀ x ∈ g.nodeOrder, 2 ≤ x ∧ x < g.numNodes + 2) ∧
      (∀ i ∈ List.range g.numNodes.toNat, ((i : Int) + 2) ∈ g.nodeOrder)) :
    (FlowNetwork.resetOrder g).Nodup := by
  unfold FlowNetwork.resetOrder
  by_cases h : (g.nodeOrder.length : Int) ≠ g.numNodes
  · rw [if_pos h]
    unfold FlowNetwork.defaultOrder
    refine (List.nodup_range _).map ?_
    intro a b hab
    dsimp only at hab
    omega
  · rw [if_neg h]
    push_neg at h
    obtain ⟨hA, hB⟩ := hord h
    have hsub : Finset.Ico (2 : Int) (g.numNodes + 2) ⊆ g.nodeOrder.toFinset := by
      intro x hx
      rw [Finset.mem_Ico] at hx
      rw [List.mem_toFinset]
      have := hB (x - 2).toNat (List.mem_range.mpr (by omega))
      rwa [show ((((x - 2).toNat) : Int) + 2) = x from by omega] at this
    have hcard := Finset.card_le_card hsub
    rw [Int.card_Ico] at hcard
    have h1 : g.nodeOrder.toFinset.card = g.nodeOrder.dedup.length :=
      List.card_toFinset _
    have h2 : g.nodeOrder.dedup.Sublist g.nodeOrder := List.dedup_sublist _
    have h3 : g.nodeOrder.dedup.length ≤ g.nodeOrder.length := h2.length_le
    have h4 : g.nodeOrder.dedup.length = g.nodeOrder.length := by omega
    have h5 : g.nodeOrder.dedup = g.nodeOrder := h2.eq_of_length h4
    rw [← h5]
    exact List.nodup_dedup _

/-- `reset` establishes the loop invariant on every well-formed network. -/
theorem reset_establishes (g : Flownet.FlowNetwork) (hWF : g.WellFormed) :
    (FlowNetwork.reset g).LoopInv ∧
    (∀ x ∈ (FlowNetwork.reset g).nodeOrder,
      2 ≤ x ∧ x < (FlowNetwork.reset g).numNodes + 2) ∧
    (∀ v : Int, 2 ≤ v → v < (FlowNetwork.reset g).numNodes + 2 →
      v ∈ (FlowNetwork.reset g).nodeOrder) ∧
    (FlowNetwork.reset g).numNodes = g.numNodes := by
  obtain ⟨w1, w2, w3, w4, w5, w6, w7, w8, w9, w10, w11, w12⟩ := hWF
  obtain ⟨f1, f2, f3, f4, f5, f6, f7⟩ := reset_frame g
  obtain ⟨hA, hB, hC, hD, hE, hF⟩ := reset_core g w1 w4
  obtain ⟨ho1, ho2⟩ := resetOrder_mem g w1 w11
  have hcapnn : ∀ e : GEdge, 0 ≤ mget g.capacity e := capNonneg_of_entries _ w8
  have hkeyadj : ∀ e : GEdge, mhas g.capacity e = true →
      g.InRange e.1 ∧ g.InRange e.2 ∧ e.2 ∈ aget g.adjacencyList e.1 := by
    intro e he
    obtain ⟨v, hv⟩ := exists_entry_of_mhas g.capacity e he
    exact w7 (e, v) hv
  have hadjr : ∀ (u x : Int), x ∈ aget g.adjacencyList u → g.InRange x := by
    intro u x hx
    unfold aget at hx
    by_cases h : u.toNat < g.adjacencyList.length
    · rw [List.getD_eq_getElem _ _ h] at hx
      exact w9 _ (List.getElem_mem _) x hx
    · rw [List.getD_eq_default] at hx
      · simp at hx
      · omega
  have hnoself : ∀ u : Int, u ∉ aget g.adjacencyList u := by
    intro u hu
    have hxr := hadjr u u hu
    have h0u : 0 ≤ u := hxr.1
    unfold aget at hu
    by_cases h : u.toNat < g.adjacencyList.length
    · rw [List.getD_eq_getElem _ _ h] at hu
      have := w10 (u.toNat, g.adjacencyList[u.toNat]) (enum_mem_of_get _ _ h)
      rw [Int.toNat_of_nonneg h0u] at this
      exact this hu
    · rw [List.getD_eq_default] at hu
      · simp at hu
      · omega
  have hfull : ∀ w : Int, 0 ≤ w → w < g.numNodes + 2 →
      w ∈ FlowNetwork.resetOrder g ++ [sourceID, sinkID] := by
    intro w h0 h1
    rcases lt_or_le w 2 with h2 | h2
    · refine List.mem_append.mpr (Or.inr ?_)
      have : w = 0 ∨ w = 1 := by omega
      rcases this with rfl | rfl <;> simp [sourceID, sinkID]
    · exact List.mem_append.mpr (Or.inl (ho2 w h2 h1))
  have hlistRange : ∀ x ∈ FlowNetwork.resetOrder g ++ [sourceID, sinkID],
      0 ≤ x ∧ x < g.numNodes + 2 := by
    intro x hx
    rcases List.mem_append.mp hx with hx | hx
    · have := ho1 x hx; omega
    · simp only [List.mem_cons, List.mem_singleton] at hx
      rcases hx with rfl | rfl | h
      · simp only [sourceID]; omega
      · simp only [sinkID]; omega
      · simp at h
  have hvm : ∀ u x : Int, 0 ≤ u →
      (x ∈ (FlowNetwork.reset g).visit u ↔
        (u.toNat < g.adjacencyList.length ∧
          (x ∈ (FlowNetwork.resetOrder g ++ [sourceID, sinkID]) ∧
            (x ∈ aget g.adjacencyList u ∨ u ∈ aget g.adjacencyList x)))) := by
    intro u x hu
    rw [visit_reset_mem, Int.toNat_of_nonneg hu]
  have hlab : ∀ j : Int, iget (FlowNetwork.reset g).label j
      = if j.toNat = 0 then g.numNodes + 2 else 0 := by
    intro j
    rw [f5]
    exact resetLabels_iget g w3 w1 j
  have hexczero : ∀ u : Int, 2 ≤ u → u < g.numNodes + 2 → iget g.excess u = 0 :=
    fun u h1 h2 => iget_eq_zero_of_drop g.excess u w12 h1 (by omega)
  have husers : ∀ u : Int, 2 ≤ u → u < g.numNodes + 2 → u ∈ g.userIDs :=
    fun u h1 h2 => (mem_userIDs g u).mpr ⟨h1, h2, by omega⟩
  -- no residual edge leaves the source right after reset (except possibly
  -- the direct source-to-sink pair, which is exempt)
  have hnosrc : ∀ v : Int, g.InRange v → v ≠ sinkID →
      ¬(FlowNetwork.reset g).residual (sourceID, v) > 0 := by
    intro v hv hvs hres
    unfold FlowNetwork.residual at hres
    simp only [erev] at hres
    by_cases hc : mget (FlowNetwork.reset g).capacity (sourceID, v) = 0
    · rw [if_pos hc, hC (v, sourceID)] at hres
      rw [if_neg ?hq0] at hres
      case hq0 =>
        rintro ⟨-, hq2, -⟩
        have := (mem_userIDs g _).mp hq2
        simp only [sourceID] at this
        omega
      exact absurd hres (by omega)
    · rw [if_neg hc] at hres
      by_cases hq : ((sourceID, v) : GEdge).1 = sourceID ∧
          ((sourceID, v) : GEdge).2 ∈ g.userIDs ∧
          mhas g.capacity (sourceID, ((sourceID, v) : GEdge).2) = true
      · rw [hA (sourceID, v), if_pos hq, hC (sourceID, v), if_pos hq] at hres
        omega
      · rw [hA (sourceID, v), if_neg hq, hC (sourceID, v), if_neg hq] at hres
        have hmh : mhas g.capacity (sourceID, v) = true :=
          mhas_of_mget_ne_zero _ _ (by omega)
        rcases lt_or_le v 2 with h2 | h2
        · have hv01 : v = 0 ∨ v = 1 := by
            have := hv.1
            omega
          rcases hv01 with rfl | rfl
          · exact hnoself sourceID (hkeyadj (sourceID, 0) hmh).2.2
          · exact hvs (by decide)
        · exact hq ⟨rfl, husers v h2 hv.2, hmh⟩
  refine ⟨⟨?_, ?_, ?_, ?_, ?_, ?_, ?_, ?_, ?_, ?_, ?_, ?_, ?_, ?_, ?_, ?_, ?_,
    ?_, ?_⟩, ?_, ?_, f1⟩
  · rw [f1]; exact w1
  · rw [f1]; exact w2
  · rw [f5, resetLabels_length, f1]; exact w3
  · rw [f7, f1]; exact w4
  · rw [f6, f1]; exact w5
  · -- visitRange
    intro u v hv
    rw [f1]
    rw [visit_reset_mem] at hv
    exact hlistRange v hv.2.1
  · -- visitSym
    intro u v hu hv
    unfold FlowNetwork.InRange at hu hv
    rw [f1] at hu hv
    rw [hvm u v hu.1, hvm v u hv.1]
    constructor
    · rintro ⟨-, -, hor⟩
      refine ⟨by omega, hfull u hu.1 hu.2, ?_⟩
      rcases hor with h | h
      · exact Or.inr h
      · exact Or.inl h
    · rintro ⟨-, -, hor⟩
      refine ⟨by omega, hfull v hv.1 hv.2, ?_⟩
      rcases hor with h | h
      · exact Or.inr h
      · exact Or.inl h
  · -- visitNoSelf
    intro u hu
    rw [visit_reset_mem] at hu
    obtain ⟨-, hm, hor⟩ := hu
    have h0u : 0 ≤ u := (hlistRange u hm).1
    rw [Int.toNat_of_nonneg h0u] at hor
    rcases hor with h | h <;> exact hnoself u h
  · -- resSupport
    intro u v hu hv hres
    unfold FlowNetwork.InRange at hu hv
    rw [f1] at hu hv
    have hlen6 : u.toNat < g.adjacencyList.length := by omega
    unfold FlowNetwork.residual at hres
    simp only [erev] at hres
    by_cases hc : mget (FlowNetwork.reset g).capacity (u, v) = 0
    · rw [if_pos hc, hC (v, u)] at hres
      by_cases hq : ((v, u) : GEdge).1 = sourceID ∧
          ((v, u) : GEdge).2 ∈ g.userIDs ∧
          mhas g.capacity (sourceID, ((v, u) : GEdge).2) = true
      · have hv0 : v = sourceID := hq.1
        have hadj : u ∈ aget g.adjacencyList sourceID :=
          (hkeyadj (sourceID, u) hq.2.2).2.2
        rw [hvm u v hu.1]
        refine ⟨hlen6, hfull v hv.1 hv.2, Or.inr ?_⟩
        rw [hv0]
        exact hadj
      · rw [if_neg hq] at hres
        exact absurd hres (by omega)
    · rw [hA (u, v)] at hc
      by_cases hq : ((u, v) : GEdge).1 = sourceID ∧
          ((u, v) : GEdge).2 ∈ g.userIDs ∧
          mhas g.capacity (sourceID, ((u, v) : GEdge).2) = true
      · have hu0 : u = sourceID := hq.1
        have hadj : v ∈ aget g.adjacencyList sourceID :=
          (hkeyadj (sourceID, v) hq.2.2).2.2
        rw [hvm u v hu.1]
        refine ⟨hlen6, hfull v hv.1 hv.2, Or.inl ?_⟩
        rw [hu0]
        exact hadj
      · rw [if_neg hq] at hc
        have hmh : mhas g.capacity (u, v) = true := mhas_of_mget_ne_zero _ _ hc
        have hadj : v ∈ aget g.adjacencyList u := (hkeyadj (u, v) hmh).2.2
        rw [hvm u v hu.1]
        exact ⟨hlen6, hfull v hv.1 hv.2, Or.inl hadj⟩
  · -- valid labeling
    intro u v hu hv hex hres
    unfold FlowNetwork.InRange at hu hv
    rw [f1] at hu hv
    by_cases hu0 : u.toNat = 0
    · exfalso
      have hueq : u = sourceID := by
        simp only [sourceID]
        omega
      rw [hueq] at hres
      exact hnosrc v ⟨hv.1, hv.2⟩ (fun hvs => hex ⟨hueq, hvs⟩) hres
    · rw [hlab u, hlab v, if_neg hu0]
      split_ifs <;> omega
  · -- labels nonnegative
    intro v
    rw [hlab v]
    split_ifs <;> omega
  · -- labels bounded
    intro v
    rw [hlab v]
    split_ifs <;> omega
  · -- source label
    rw [f1, hlab sourceID, if_pos (by rfl)]
  · -- sink label
    rw [hlab sinkID, if_neg (by decide)]
  · -- user excess nonnegative
    intro u h2u hun
    rw [f1] at hun
    rw [hD u h2u]
    split_ifs with h
    · exact outgoingCapacity_nonneg g u hcapnn
    · rw [hexczero u h2u hun]
  · -- preflow within capacity bounds
    intro e he
    rw [hB e] at he
    rw [hC e, hA e]
    by_cases hq : e.1 = sourceID ∧ e.2 ∈ g.userIDs ∧
        mhas g.capacity (sourceID, e.2) = true
    · rw [if_pos hq, if_pos hq]
      exact ⟨outgoingCapacity_nonneg g e.2 hcapnn, le_refl _⟩
    · rw [if_neg hq, if_neg hq]
      exact ⟨le_refl 0, hcapnn e⟩
  · -- preflow keys are unique
    exact hF
  · -- nonzero preflow lives only on recorded capacity edges
    rintro ⟨a, b⟩ hne
    rw [hC (a, b)] at hne
    rw [hB (a, b)]
    by_cases hq : ((a, b) : GEdge).1 = sourceID ∧
        ((a, b) : GEdge).2 ∈ g.userIDs ∧
        mhas g.capacity (sourceID, ((a, b) : GEdge).2) = true
    · have ha : a = sourceID := hq.1
      rw [ha]
      exact hq.2.2
    · rw [if_neg hq] at hne
      exact absurd rfl hne
  · -- excess equals inflow minus outflow at user nodes
    intro u h2u hun
    rw [f1] at hun
    rw [hD u h2u]
    have hin : FlowNetwork.inflow (FlowNetwork.reset g).preflow u
        = mget (FlowNetwork.reset g).preflow (sourceID, u) :=
      inflow_eq_mget_source _ u hF hE
    have hout : FlowNetwork.outflowFrom (FlowNetwork.reset g).preflow u = 0 := by
      refine outflowFrom_eq_zero _ u (fun kv hkv => ?_)
      have := hE kv hkv
      simp only [sourceID] at this ⊢
      omega
    rw [hin, hout, hC (sourceID, u)]
    by_cases hq : ((sourceID, u) : GEdge).1 = sourceID ∧
        ((sourceID, u) : GEdge).2 ∈ g.userIDs ∧
        mhas g.capacity (sourceID, ((sourceID, u) : GEdge).2) = true
    · rw [if_pos ⟨hq.2.1, hq.2.2⟩, if_pos hq]
      show g.outgoingCapacity u = g.outgoingCapacity u - 0
      omega
    · rw [if_neg (fun hc => hq ⟨rfl, hc.1, hc.2⟩), if_neg hq]
      rw [hexczero u h2u hun]
      omega
  · -- node-order entries are user nodes
    intro x hx
    rw [f2] at hx
    rw [f1]
    exact ho1 x hx
  · -- node-order covers all user nodes
    intro v h1 h2
    rw [f2]
    rw [f1] at h2
    exact ho2 v h1 h2

/-! ## The `push` operation -/

theorem push_spec (g : FlowNetwork) (e : GEdge) :
    g.push e = { g with
      preflow :=
        if mget g.capacity e > 0 then
          mset g.preflow e
            (mget g.preflow e + min (iget g.excess e.1) (g.residual e))
        else
          mset g.preflow (erev e)
            (mget g.preflow (erev e) - min (iget g.excess e.1) (g.residual e)),
      excess :=
        iset (iset g.excess e.1
            (iget g.excess e.1 - min (iget g.excess e.1) (g.residual e))) e.2
          (iget (iset g.excess e.1
              (iget g.excess e.1 - min (iget g.excess e.1) (g.residual e))) e.2
            + min (iget g.excess e.1) (g.residual e)) } := by
  by_cases h : mget g.capacity e > 0
  · simp only [FlowNetwork.push, if_pos h]
  · simp only [FlowNetwork.push, if_neg h]

theorem push_frame (g : FlowNetwork) (e : GEdge) :
    (g.push e).numNodes = g.numNodes ∧
    (g.push e).nodeOrder = g.nodeOrder ∧
    (g.push e).adjacencyList = g.adjacencyList ∧
    (g.push e).adjacencyVisitList = g.adjacencyVisitList ∧
    (g.push e).capacity = g.capacity ∧
    (g.push e).label = g.label ∧
    (g.push e).seen = g.seen ∧
    (g.push e).excess.length = g.excess.length := by
  rw [push_spec]
  refine ⟨rfl, rfl, rfl, rfl, rfl, rfl, rfl, ?_⟩
  show (iset (iset g.excess e.1 _) e.2 _).length = g.excess.length
  rw [length_iset, length_iset]

theorem push_preflow_pos (g : FlowNetwork) (a b : Int)
    (h : mget g.capacity (a, b) > 0) :
    (g.push (a, b)).preflow
      = mset g.preflow (a, b)
          (mget g.preflow (a, b) + min (iget g.excess a) (g.residual (a, b))) := by
  rw [push_spec, if_pos h]

theorem push_preflow_neg (g : FlowNetwork) (a b : Int)
    (h : ¬ mget g.capacity (a, b) > 0) :
    (g.push (a, b)).preflow
      = mset g.preflow (b, a)
          (mget g.preflow (b, a) - min (iget g.excess a) (g.residual (a, b))) := by
  rw [push_spec, if_neg h]
  rfl

theorem push_residual_frame (g : FlowNetwork) (a b x y : Int)
    (h1 : ¬(x = a ∧ y = b)) (h2 : ¬(x = b ∧ y = a)) :
    (g.push (a, b)).residual (x, y) = g.residual (x, y) := by
  have hpf : ∀ z w : Int, (z = x ∧ w = y) ∨ (z = y ∧ w = x) →
      mget (g.push (a, b)).preflow (z, w) = mget g.preflow (z, w) := by
    intro z w hzw
    have hne1 : ((a, b) : GEdge) ≠ (z, w) := by
      intro hc
      rw [Prod.mk.injEq] at hc
      rcases hzw with ⟨rfl, rfl⟩ | ⟨rfl, rfl⟩
      · exact h1 ⟨hc.1.symm, hc.2.symm⟩
      · exact h2 ⟨hc.2.symm, hc.1.symm⟩
    have hne2 : ((b, a) : GEdge) ≠ (z, w) := by
      intro hc
      rw [Prod.mk.injEq] at hc
      rcases hzw with ⟨rfl, rfl⟩ | ⟨rfl, rfl⟩
      · exact h2 ⟨hc.1.symm, hc.2.symm⟩
      · exact h1 ⟨hc.2.symm, hc.1.symm⟩
    by_cases hcap : mget g.capacity (a, b) > 0
    · rw [push_preflow_pos g a b hcap]
      exact mget_mset_ne _ _ _ _ hne1
    · rw [push_preflow_neg g a b hcap]
      exact mget_mset_ne _ _ _ _ hne2
  have hcap : (g.push (a, b)).capacity = g.capacity :=
    (push_frame g (a, b)).2.2.2.2.1
  unfold FlowNetwork.residual
  simp only [erev]
  rw [hcap, hpf x y (Or.inl ⟨rfl, rfl⟩), hpf y x (Or.inr ⟨rfl, rfl⟩)]

theorem push_residual_self (g : FlowNetwork) (a b : Int)
    (hc0 : 0 ≤ mget g.capacity (a, b)) :
    (g.push (a, b)).residual (a, b)
      = g.residual (a, b) - min (iget g.excess a) (g.residual (a, b)) := by
  have hcap : (g.push (a, b)).capacity = g.capacity :=
    (push_frame g (a, b)).2.2.2.2.1
  by_cases h : mget g.capacity (a, b) > 0
  · have hpf := push_preflow_pos g a b h
    have hr : g.residual (a, b) = mget g.capacity (a, b) - mget g.preflow (a, b) := by
      unfold FlowNetwork.residual
      rw [if_neg (by omega)]
    have hr' : (g.push (a, b)).residual (a, b)
        = mget g.capacity (a, b) - mget (g.push (a, b)).preflow (a, b) := by
      unfold FlowNetwork.residual
      rw [hcap, if_neg (by omega)]
    rw [hr', hpf, mget_mset_eq, hr]
    omega
  · have h0 : mget g.capacity (a, b) = 0 := by omega
    have hpf := push_preflow_neg g a b h
    have hr : g.residual (a, b) = mget g.preflow (b, a) := by
      unfold FlowNetwork.residual
      rw [if_pos h0]
      rfl
    have hr' : (g.push (a, b)).residual (a, b)
        = mget (g.push (a, b)).preflow (b, a) := by
      unfold FlowNetwork.residual
      rw [hcap, if_pos h0]
      rfl
    rw [hr', hpf, mget_mset_eq, hr]

theorem push_excess_iget (g : FlowNetwork) (a b w : Int)
    (ha : 0 ≤ a) (ha' : a < (g.excess.length : Int))
    (hb : 0 ≤ b) (hb' : b < (g.excess.length : Int))
    (hab : a ≠ b) (hw : 0 ≤ w) :
    iget (g.push (a, b)).excess w =
      iget g.excess w
        + (if w = b then min (iget g.excess a) (g.residual (a, b)) else 0)
        - (if w = a then min (iget g.excess a) (g.residual (a, b)) else 0) := by
  rw [push_spec]
  show iget (iset (iset g.excess a
      (iget g.excess a - min (iget g.excess a) (g.residual (a, b)))) b
      (iget (iset g.excess a
        (iget g.excess a - min (iget g.excess a) (g.residual (a, b)))) b
        + min (iget g.excess a) (g.residual (a, b)))) w = _
  have hEb : iget (iset g.excess a
      (iget g.excess a - min (iget g.excess a) (g.residual (a, b)))) b
      = iget g.excess b := iget_iset_ne _ _ _ _ ha hb hab
  by_cases hwb : w = b
  · subst hwb
    rw [iget_iset_eq _ _ _ hb (by rw [length_iset]; exact hb'), hEb]
    split_ifs <;> omega
  · rw [iget_iset_ne' _ _ _ _ (by omega)]
    by_cases hwa : w = a
    · subst hwa
      rw [iget_iset_eq _ _ _ ha ha']
      split_ifs <;> omega
    · rw [iget_iset_ne' _ _ _ _ (by omega)]
      split_ifs <;> omega

theorem capacity_nonneg_of_inv (g : FlowNetwork) (hInv : g.LoopInv) :
    ∀ e : GEdge, 0 ≤ mget g.capacity e := by
  intro e
  by_cases hh : mhas g.capacity e = true
  · have := hInv.pfBounds e hh
    omega
  · rw [mget_eq_zero_of_mhas_false _ _ (by simpa using hh)]

/-- `push` along an admissible edge out of a positive-excess node preserves
the main-loop invariant. -/
theorem push_preserves (g : FlowNetwork) (u v : Int) (hInv : g.LoopInv)
    (hu : g.InRange u) (hv : g.InRange v) (huv : u ≠ v)
    (hvis : v ∈ g.visit u)
    (hexc : iget g.excess u > 0)
    (hres : g.residual (u, v) > 0)
    (hlab : iget g.label u = iget g.label v + 1) :
    (g.push (u, v)).LoopInv := by
  obtain ⟨hfn, hford, hfadj, hfav, hfcap, hflab, hfseen, hfexlen⟩ := push_frame g (u, v)
  have hcapnn := capacity_nonneg_of_inv g hInv
  have hδ : 0 ≤ min (iget g.excess u) (g.residual (u, v)) := by omega
  have hvisit : ∀ w : Int, (g.push (u, v)).visit w = g.visit w := by
    intro w
    unfold FlowNetwork.visit
    rw [hfav]
  have hIR : ∀ w : Int, (g.push (u, v)).InRange w ↔ g.InRange w := by
    intro w
    unfold FlowNetwork.InRange
    rw [hfn]
  have hlenexc : (g.excess.length : Int) = g.numNodes + 2 := hInv.lenExc
  have hexiget : ∀ w : Int, 0 ≤ w → iget (g.push (u, v)).excess w =
      iget g.excess w
        + (if w = v then min (iget g.excess u) (g.residual (u, v)) else 0)
        - (if w = u then min (iget g.excess u) (g.residual (u, v)) else 0) :=
    fun w hw => push_excess_iget g u v w hu.1
      (by rw [hlenexc]; exact hu.2) hv.1 (by rw [hlenexc]; exact hv.2) huv hw
  refine ⟨?_, ?_, ?_, ?_, ?_, ?_, ?_, ?_, ?_, ?_, ?_, ?_, ?_, ?_, ?_, ?_, ?_,
    ?_, ?_⟩
  · rw [hfn]; exact hInv.hnn
  · rw [hfn]; exact hInv.hsmall
  · rw [hflab, hfn]; exact hInv.lenLab
  · rw [hfexlen, hfn]; exact hInv.lenExc
  · rw [hfseen, hfn]; exact hInv.lenSeen
  · -- visitRange
    intro a b hb
    rw [hfn]
    rw [hvisit a] at hb
    exact hInv.visitRange a b hb
  · -- visitSym
    intro a b ha hb
    rw [hIR] at ha hb
    rw [hvisit a, hvisit b]
    exact hInv.visitSym a b ha hb
  · -- visitNoSelf
    intro a
    rw [hvisit a]
    exact hInv.visitNoSelf a
  · -- resSupport
    intro x y hx hy hr'
    rw [hIR] at hx hy
    rw [hvisit x]
    by_cases hx1 : x = u ∧ y = v
    · rw [hx1.1, hx1.2]
      exact hvis
    · by_cases hx2 : x = v ∧ y = u
      · rw [hx2.1, hx2.2]
        exact (hInv.visitSym v u hv hu).mpr hvis
      · rw [push_residual_frame g u v x y hx1 hx2] at hr'
        exact hInv.resSupport x y hx hy hr'
  · -- valid
    intro x y hx hy hexempt hr'
    rw [hIR] at hx hy
    have hlabeq : ∀ z : Int, iget (g.push (u, v)).label z = iget g.label z := by
      intro z
      rw [hflab]
    rw [hlabeq x, hlabeq y]
    by_cases hx1 : x = u ∧ y = v
    · rw [hx1.1, hx1.2]
      omega
    · by_cases hx2 : x = v ∧ y = u
      · rw [hx2.1, hx2.2]
        omega
      · rw [push_residual_frame g u v x y hx1 hx2] at hr'
        exact hInv.valid x y hx hy hexempt hr'
  · -- labNonneg
    intro z
    rw [hflab]
    exact hInv.labNonneg z
  · -- labBound
    intro z
    rw [hflab]
    exact hInv.labBound z
  · rw [hflab, hfn]; exact hInv.labSrc
  · rw [hflab]; exact hInv.labSink
  · -- excUser
    intro w h2w hwn
    rw [hfn] at hwn
    rw [hexiget w (by omega)]
    have hold := hInv.excUser w h2w hwn
    by_cases hwv : w = v
    · subst hwv
      rw [if_pos rfl, if_neg (fun hc => huv hc.symm)]
      omega
    · rw [if_neg hwv]
      by_cases hwu : w = u
      · subst hwu
        rw [if_pos rfl]
        omega
      · rw [if_neg hwu]
        omega
  · -- pfBounds
    intro e' he'
    rw [hfcap] at he' ⊢
    by_cases hcap : mget g.capacity (u, v) > 0
    · rw [push_preflow_pos g u v hcap]
      by_cases he : ((u, v) : GEdge) = e'
      · rw [← he, mget_mset_eq]
        have hbnd := hInv.pfBounds (u, v) (mhas_of_mget_ne_zero _ _ (by omega))
        have hrr : g.residual (u, v)
            = mget g.capacity (u, v) - mget g.preflow (u, v) := by
          unfold FlowNetwork.residual
          rw [if_neg (by omega)]
        constructor <;> omega
      · rw [mget_mset_ne _ _ _ _ he]
        exact hInv.pfBounds e' he'
    · have h0 : mget g.capacity (u, v) = 0 := by
        have := hcapnn (u, v)
        omega
      have hrpf : g.residual (u, v) = mget g.preflow (v, u) := by
        unfold FlowNetwork.residual
        rw [if_pos h0]
        rfl
      have hbnd := hInv.pfBounds (v, u)
        (hInv.pfSupport (v, u) (by rw [← hrpf]; omega))
      rw [push_preflow_neg g u v hcap]
      by_cases he : ((v, u) : GEdge) = e'
      · rw [← he, mget_mset_eq]
        constructor <;> omega
      · rw [mget_mset_ne _ _ _ _ he]
        exact hInv.pfBounds e' he'
  · -- pfND
    by_cases hcap : mget g.capacity (u, v) > 0
    · rw [push_preflow_pos g u v hcap]
      exact keysND_mset _ _ _ hInv.pfND
    · rw [push_preflow_neg g u v hcap]
      exact keysND_mset _ _ _ hInv.pfND
  · -- pfSupport
    intro e' hne'
    rw [hfcap]
    by_cases hcap : mget g.capacity (u, v) > 0
    · rw [push_preflow_pos g u v hcap] at hne'
      by_cases he : ((u, v) : GEdge) = e'
      · rw [← he]
        exact mhas_of_mget_ne_zero _ _ (by omega)
      · rw [mget_mset_ne _ _ _ _ he] at hne'
        exact hInv.pfSupport e' hne'
    · have h0 : mget g.capacity (u, v) = 0 := by
        have := hcapnn (u, v)
        omega
      have hrpf : g.residual (u, v) = mget g.preflow (v, u) := by
        unfold FlowNetwork.residual
        rw [if_pos h0]
        rfl
      rw [push_preflow_neg g u v hcap] at hne'
      by_cases he : ((v, u) : GEdge) = e'
      · rw [← he]
        exact hInv.pfSupport (v, u) (by rw [← hrpf]; omega)
      · rw [mget_mset_ne _ _ _ _ he] at hne'
        exact hInv.pfSupport e' hne'
  · -- excEq
    intro w h2w hwn
    rw [hfn] at hwn
    rw [hexiget w (by omega)]
    have hold := hInv.excEq w h2w hwn
    by_cases hcap : mget g.capacity (u, v) > 0
    · rw [push_preflow_pos g u v hcap]
      rw [inflow_mset g.preflow u v _ w hInv.pfND,
        outflowFrom_mset g.preflow u v _ w hInv.pfND]
      split_ifs <;> omega
    · rw [push_preflow_neg g u v hcap]
      rw [inflow_mset g.preflow v u _ w hInv.pfND,
        outflowFrom_mset g.preflow v u _ w hInv.pfND]
      split_ifs <;> omega

/-! ## The `relabel` operation -/

theorem relabelFold_spec (g0 : FlowNetwork) (u : Int) (h0u : 0 ≤ u) :
    ∀ l : List Int, u ∉ l → (∀ w ∈ l, 0 ≤ w) →
    ∀ (mh : Int) (h : FlowNetwork),
    (h = g0 ∨ h = { g0 with label := iset g0.label u (mh + 1) }) →
    ((l.foldl (FlowNetwork.relabelStep u) (mh, h)).2 = g0 ∧
       (l.foldl (FlowNetwork.relabelStep u) (mh, h)).1 = mh ∧ h = g0 ∧
       (∀ w ∈ l, ¬ g0.residual (u, w) > 0)) ∨
    ((l.foldl (FlowNetwork.relabelStep u) (mh, h)).2
        = { g0 with label := iset g0.label u ((l.foldl (FlowNetwork.relabelStep u) (mh, h)).1 + 1) } ∧
       (l.foldl (FlowNetwork.relabelStep u) (mh, h)).1 ≤ mh ∧
       (∀ w ∈ l, g0.residual (u, w) > 0 →
         (l.foldl (FlowNetwork.relabelStep u) (mh, h)).1 ≤ iget g0.label w) ∧
       ((l.foldl (FlowNetwork.relabelStep u) (mh, h)).1 = mh ∨
         ∃ w ∈ l, g0.residual (u, w) > 0 ∧
           (l.foldl (FlowNetwork.relabelStep u) (mh, h)).1 = iget g0.label w)) := by
  intro l
  induction l with
  | nil =>
    intro _ _ mh h hh
    rcases hh with rfl | rfl
    · exact Or.inl ⟨rfl, rfl, rfl, by simp⟩
    · exact Or.inr ⟨rfl, le_refl _, by simp, Or.inl rfl⟩
  | cons w t ih =>
    intro hul hl0 mh h hh
    have hwu : w ≠ u := by
      intro hc
      exact hul (by rw [← hc]; exact List.mem_cons_self w t)
    have hut : u ∉ t := fun hc => hul (List.mem_cons_of_mem w hc)
    have hw0 : 0 ≤ w := hl0 w (List.mem_cons_self w t)
    have ht0 : ∀ x ∈ t, 0 ≤ x := fun x hx => hl0 x (List.mem_cons_of_mem w hx)
    have hres_eq : h.residual (u, w) = g0.residual (u, w) := by
      rcases hh with rfl | rfl <;> rfl
    have hlab_eq : iget h.label w = iget g0.label w := by
      rcases hh with rfl | rfl
      · rfl
      · exact iget_iset_ne' _ _ _ _ (by omega)
    rw [List.foldl_cons]
    by_cases hfire : g0.residual (u, w) > 0
    · have hstep : FlowNetwork.relabelStep u (mh, h) w
          = (min mh (iget g0.label w),
             { g0 with label := iset g0.label u (min mh (iget g0.label w) + 1) }) := by
        unfold FlowNetwork.relabelStep
        rw [if_pos (show h.residual (u, w) > 0 by rw [hres_eq]; exact hfire)]
        rw [show iget h.label w = iget g0.label w from hlab_eq]
        rcases hh with rfl | rfl
        · rfl
        · show (min mh (iget g0.label w),
            ({ g0 with label := iset (iset g0.label u (mh + 1)) u (min mh (iget g0.label w) + 1) } : FlowNetwork)) = _
          rw [iset_iset]
      rw [hstep]
      have hres := ih hut ht0 (min mh (iget g0.label w))
        { g0 with label := iset g0.label u (min mh (iget g0.label w) + 1) }
        (Or.inr rfl)
      rcases hres with ⟨h1, h2, h3, h4⟩ | ⟨h1, h2, h3, h4⟩
      · refine Or.inr ⟨?_, ?_, ?_, ?_⟩
        · rw [h1, h2]
          exact h3.symm
        · rw [h2]
          exact min_le_left _ _
        · intro x hx hxr
          rcases List.mem_cons.mp hx with rfl | hx'
          · rw [h2]
            exact min_le_right _ _
          · exact absurd hxr (h4 x hx')
        · rw [h2]
          rcases min_choice mh (iget g0.label w) with hm | hm
          · exact Or.inl hm
          · exact Or.inr ⟨w, List.mem_cons_self w t, hfire, hm⟩
      · refine Or.inr ⟨h1, le_trans h2 (min_le_left _ _), ?_, ?_⟩
        · intro x hx hxr
          rcases List.mem_cons.mp hx with rfl | hx'
          · exact le_trans h2 (min_le_right _ _)
          · exact h3 x hx' hxr
        · rcases h4 with h4 | ⟨x, hx, hx2, hx3⟩
          · rw [h4]
            rcases min_choice mh (iget g0.label w) with hm | hm
            · exact Or.inl hm
            · exact Or.inr ⟨w, List.mem_cons_self w t, hfire, hm⟩
          · exact Or.inr ⟨x, List.mem_cons_of_mem w hx, hx2, hx3⟩
    · have hstep : FlowNetwork.relabelStep u (mh, h) w = (mh, h) := by
        unfold FlowNetwork.relabelStep
        rw [if_neg (show ¬ h.residual (u, w) > 0 by rw [hres_eq]; exact hfire)]
      rw [hstep]
      have hres := ih hut ht0 mh h hh
      rcases hres with ⟨h1, h2, h3, h4⟩ | ⟨h1, h2, h3, h4⟩
      · refine Or.inl ⟨h1, h2, h3, ?_⟩
        intro x hx
        rcases List.mem_cons.mp hx with rfl | hx'
        · exact hfire
        · exact h4 x hx'
      · refine Or.inr ⟨h1, h2, ?_, ?_⟩
        · intro x hx hxr
          rcases List.mem_cons.mp hx with rfl | hx'
          · exact absurd hxr hfire
          · exact h3 x hx' hxr
        · rcases h4 with h4 | ⟨x, hx, hx2, hx3⟩
          · exact Or.inl h4
          · exact Or.inr ⟨x, List.mem_cons_of_mem w hx, hx2, hx3⟩

/-- A successful `relabel u` rewrites exactly the label of `u`, to one more
than the minimum label over residual-positive visit neighbours. -/
theorem relabel_spec (g : FlowNetwork) (u : Int) (g' : FlowNetwork)
    (h0u : 0 ≤ u)
    (hvu : u ∉ g.visit u) (hv0 : ∀ w ∈ g.visit u, 0 ≤ w)
    (hsome : g.relabel u = some g') :
    ∃ L : Int,
      g' = { g with label := iset g.label u L } ∧
      (∃ w ∈ g.visit u, g.residual (u, w) > 0 ∧ L = iget g.label w + 1) ∧
      (∀ w ∈ g.visit u, g.residual (u, w) > 0 → L ≤ iget g.label w + 1) ∧
      L < maxInt32 := by
  unfold FlowNetwork.relabel at hsome
  by_cases hc : ((g.visit u).foldl (FlowNetwork.relabelStep u) (maxInt32 - 1, g)).1 + 1
      = maxInt32
  · rw [if_pos hc] at hsome
    exact Option.noConfusion hsome
  · rw [if_neg hc] at hsome
    have hg' : ((g.visit u).foldl (FlowNetwork.relabelStep u) (maxInt32 - 1, g)).2
        = g' := Option.some.inj hsome
    have hfold := relabelFold_spec g u h0u (g.visit u) hvu hv0 (maxInt32 - 1) g
      (Or.inl rfl)
    rcases hfold with ⟨h1, h2, h3, h4⟩ | ⟨h1, h2, h3, h4⟩
    · rw [h2] at hc
      omega
    · rcases h4 with h4 | ⟨w, hw, hwr, hweq⟩
      · rw [h4] at hc
        omega
      · refine ⟨((g.visit u).foldl (FlowNetwork.relabelStep u) (maxInt32 - 1, g)).1 + 1,
          ?_, ⟨w, hw, hwr, by rw [hweq]⟩, ?_, ?_⟩
        · rw [← hg', h1]
        · intro x hx hxr
          have := h3 x hx hxr
          omega
        · omega

/-- The relabel branch of `discharge` (a successful `relabel u` followed by
resetting `seen[u]`) preserves the main-loop invariant, weakly raises the
label of `u`, and leaves everything except `label[u]` and `seen[u]` alone. -/
theorem relabel_discharge_preserves (g : FlowNetwork) (u : Int) (r : FlowNetwork)
    (hInv : g.LoopInv) (h2u : 2 ≤ u) (hun : u < g.numNodes + 2)
    (hrel : g.relabel u = some r) :
    ({ r with seen := iset r.seen u 0 } : FlowNetwork).LoopInv ∧
    iget g.label u ≤ iget r.label u ∧
    (∀ w : Int, w.toNat ≠ u.toNat → iget r.label w = iget g.label w) ∧
    r.capacity = g.capacity ∧ r.preflow = g.preflow ∧ r.excess = g.excess ∧
    r.numNodes = g.numNodes ∧ r.adjacencyVisitList = g.adjacencyVisitList ∧
    r.nodeOrder = g.nodeOrder ∧ r.seen = g.seen := by
  have h0u : (0 : Int) ≤ u := by omega
  have hu : g.InRange u := ⟨h0u, hun⟩
  have hv0 : ∀ w ∈ g.visit u, 0 ≤ w := fun w hw => (hInv.visitRange u w hw).1
  obtain ⟨L, hrL, ⟨w0, hw0v, hw0r, hw0e⟩, hLle, hLlt⟩ :=
    relabel_spec g u r h0u (hInv.visitNoSelf u) hv0 hrel
  have hw0IR : g.InRange w0 :=
    ⟨(hInv.visitRange u w0 hw0v).1, (hInv.visitRange u w0 hw0v).2⟩
  have hunotsrc : ¬(u = sourceID ∧ w0 = sinkID) := by
    rintro ⟨hus, -⟩
    have : u = 0 := by rw [hus]; rfl
    omega
  have hval := hInv.valid u w0 hu hw0IR hunotsrc hw0r
  have hinc : iget g.label u ≤ L := by omega
  have hlenlab : u.toNat < g.label.length := by
    have := hInv.lenLab
    omega
  have hlabL : ∀ x : Int, iget r.label x
      = if x.toNat = u.toNat then L else iget g.label x := by
    intro x
    rw [hrL]
    show iget (iset g.label u L) x = _
    by_cases hx : x.toNat = u.toNat
    · rw [if_pos hx, iget_iset_eq' _ _ _ _ hx.symm hlenlab]
    · rw [if_neg hx, iget_iset_ne' _ _ _ _ (fun hc => hx hc.symm)]
  have hfcap : r.capacity = g.capacity := by rw [hrL]
  have hfpf : r.preflow = g.preflow := by rw [hrL]
  have hfexc : r.excess = g.excess := by rw [hrL]
  have hfnum : r.numNodes = g.numNodes := by rw [hrL]
  have hfav : r.adjacencyVisitList = g.adjacencyVisitList := by rw [hrL]
  have hford : r.nodeOrder = g.nodeOrder := by rw [hrL]
  have hfseen : r.seen = g.seen := by rw [hrL]
  have hflab : r.label = iset g.label u L := by rw [hrL]
  have hres2 : ∀ e : GEdge,
      ({ r with seen := iset r.seen u 0 } : FlowNetwork).residual e
        = g.residual e := by
    intro e
    unfold FlowNetwork.residual
    rw [show ({ r with seen := iset r.seen u 0 } : FlowNetwork).capacity
        = g.capacity from hfcap,
      show ({ r with seen := iset r.seen u 0 } : FlowNetwork).preflow
        = g.preflow from hfpf]
  have hvis2 : ∀ z : Int,
      ({ r with seen := iset r.seen u 0 } : FlowNetwork).visit z = g.visit z := by
    intro z
    unfold FlowNetwork.visit
    rw [show ({ r with seen := iset r.seen u 0 } : FlowNetwork).adjacencyVisitList
        = g.adjacencyVisitList from hfav]
  have hnum2 : ({ r with seen := iset r.seen u 0 } : FlowNetwork).numNodes
      = g.numNodes := hfnum
  have hIR2 : ∀ z : Int,
      ({ r with seen := iset r.seen u 0 } : FlowNetwork).InRange z ↔ g.InRange z := by
    intro z
    unfold FlowNetwork.InRange
    rw [hnum2]
  have hlab2 : ∀ x : Int,
      iget ({ r with seen := iset r.seen u 0 } : FlowNetwork).label x
        = if x.toNat = u.toNat then L else iget g.label x := hlabL
  refine ⟨⟨?_, ?_, ?_, ?_, ?_, ?_, ?_, ?_, ?_, ?_, ?_, ?_, ?_, ?_, ?_, ?_, ?_,
    ?_, ?_⟩, ?_, ?_, hfcap, hfpf, hfexc, hfnum, hfav, hford, hfseen⟩
  · rw [hnum2]; exact hInv.hnn
  · rw [hnum2]; exact hInv.hsmall
  · show ((r.label.length : Int)) = _
    rw [show r.label = iset g.label u L from hflab, hnum2]
    rw [length_iset]
    exact hInv.lenLab
  · show ((r.excess.length : Int)) = _
    rw [hfexc, hnum2]
    exact hInv.lenExc
  · show (((iset r.seen u 0).length : Int)) = _
    rw [length_iset, hfseen, hnum2]
    exact hInv.lenSeen
  · -- visitRange
    intro a b hb
    rw [hvis2 a] at hb
    rw [hnum2]
    exact hInv.visitRange a b hb
  · -- visitSym
    intro a b ha hb
    rw [hIR2] at ha hb
    rw [hvis2 a, hvis2 b]
    exact hInv.visitSym a b ha hb
  · -- visitNoSelf
    intro a
    rw [hvis2 a]
    exact hInv.visitNoSelf a
  · -- resSupport
    intro x y hx hy hr'
    rw [hIR2] at hx hy
    rw [hres2 (x, y)] at hr'
    rw [hvis2 x]
    exact hInv.resSupport x y hx hy hr'
  · -- valid
    intro x y hx hy hexempt hr'
    rw [hIR2] at hx hy
    rw [hres2 (x, y)] at hr'
    rw [hlab2 x, hlab2 y]
    by_cases hxu : x.toNat = u.toNat
    · rw [if_pos hxu]
      have hxequ : x = u := by omega
      by_cases hyu : y.toNat = u.toNat
      · exfalso
        have hyequ : y = u := by omega
        have hm := hInv.resSupport x y hx hy hr'
        rw [hxequ, hyequ] at hm
        exact hInv.visitNoSelf u hm
      · rw [if_neg hyu]
        rw [hxequ] at hr'
        have hyv : y ∈ g.visit u := hInv.resSupport u y hu hy hr'
        have := hLle y hyv hr'
        omega
    · rw [if_neg hxu]
      by_cases hyu : y.toNat = u.toNat
      · rw [if_pos hyu]
        have hyequ : y = u := by omega
        rw [hyequ] at hr'
        have hnex : ¬(x = sourceID ∧ u = sinkID) := by
          rintro ⟨-, hu1⟩
          have : u = 1 := by rw [hu1]; rfl
          omega
        have hold := hInv.valid x u hx hu hnex hr'
        omega
      · rw [if_neg hyu]
        exact hInv.valid x y hx hy hexempt hr'
  · -- labNonneg
    intro z
    rw [hlab2 z]
    have := hInv.labNonneg w0
    have := hInv.labNonneg z
    split_ifs <;> omega
  · -- labBound
    intro z
    rw [hlab2 z]
    have := hInv.labBound z
    split_ifs <;> omega
  · -- labSrc
    rw [hlab2 sourceID, hnum2]
    rw [if_neg (by simp only [sourceID]; omega)]
    exact hInv.labSrc
  · -- labSink
    rw [hlab2 sinkID]
    rw [if_neg (by simp only [sinkID]; omega)]
    exact hInv.labSink
  · -- excUser
    intro z h2z hzn
    rw [hnum2] at hzn
    show 0 ≤ iget r.excess z
    rw [hfexc]
    exact hInv.excUser z h2z hzn
  · -- pfBounds
    intro e he
    show 0 ≤ mget r.preflow e ∧ mget r.preflow e ≤ mget r.capacity e
    rw [hfpf, hfcap]
    rw [show ({ r with seen := iset r.seen u 0 } : FlowNetwork).capacity
        = g.capacity from hfcap] at he
    exact hInv.pfBounds e he
  · -- pfND
    show keysND r.preflow
    rw [hfpf]
    exact hInv.pfND
  · -- pfSupport
    intro e he
    show mhas r.capacity e = true
    rw [hfcap]
    refine hInv.pfSupport e ?_
    rw [show mget ({ r with seen := iset r.seen u 0 } : FlowNetwork).preflow e
        = mget g.preflow e from by rw [hfpf]] at he
    exact he
  · -- excEq
    intro z h2z hzn
    rw [hnum2] at hzn
    show iget r.excess z
      = FlowNetwork.inflow r.preflow z - FlowNetwork.outflowFrom r.preflow z
    rw [hfexc, hfpf]
    exact hInv.excEq z h2z hzn
  · -- weak increase
    rw [hlabL u, if_pos rfl]
    exact hinc
  · -- other labels unchanged
    intro w hw
    rw [hlabL w, if_neg hw]

/-! ## The `discharge` loop -/

theorem discharge_spec (u : Int) :
    ∀ (fuel : Nat) (g g' : FlowNetwork),
    g.LoopInv → 2 ≤ u → u < g.numNodes + 2 →
    FlowNetwork.discharge fuel g u = some g' →
    FlowNetwork.DSpec u g g' := by
  intro fuel
  induction fuel with
  | zero =>
    intro g g' _ _ _ hd
    rw [show FlowNetwork.discharge 0 g u = none from rfl] at hd
    exact Option.noConfusion hd
  | succ fuel ih =>
    intro g g' hInv h2u hun hd
    simp only [FlowNetwork.discharge] at hd
    by_cases hpos : iget g.excess u > 0
    · rw [if_pos hpos] at hd
      by_cases hseen : iget g.seen u = ((g.visit u).length : Int)
      · -- relabel branch
        rw [if_pos hseen] at hd
        rcases hrel : g.relabel u with - | r
        · rw [hrel] at hd
          exact Option.noConfusion hd
        · rw [hrel] at hd
          obtain ⟨hInv1, hmono1, hoth1, hcapr, hpfr, hexcr, hnumr, havr, hordr,
            hseenr⟩ := relabel_discharge_preserves g u r hInv h2u hun hrel
          have hd1 : FlowNetwork.discharge fuel
              ({ r with seen := iset r.seen u 0 } : FlowNetwork) u = some g' := hd
          have hnum1 : ({ r with seen := iset r.seen u 0 } : FlowNetwork).numNodes
              = g.numNodes := hnumr
          have ihres := ih ({ r with seen := iset r.seen u 0 }) g' hInv1 h2u
            (by rw [hnum1]; exact hun) hd1
          have hres1 : ∀ e : GEdge,
              ({ r with seen := iset r.seen u 0 } : FlowNetwork).residual e
                = g.residual e := by
            intro e
            unfold FlowNetwork.residual
            rw [show ({ r with seen := iset r.seen u 0 } : FlowNetwork).capacity
                = g.capacity from hcapr,
              show ({ r with seen := iset r.seen u 0 } : FlowNetwork).preflow
                = g.preflow from hpfr]
          refine ⟨ihres.inv, ihres.num.trans hnum1,
            ihres.cap.trans (show _ = g.capacity from hcapr),
            ihres.avl.trans (show _ = g.adjacencyVisitList from havr),
            ihres.ord.trans (show _ = g.nodeOrder from hordr),
            ihres.exc0, ?_, ?_, ?_, ?_, ?_, ?_⟩
          · -- labMono
            have h2 : iget r.label u ≤ iget g'.label u := ihres.labMono
            omega
          · -- labOther
            intro w hw
            have h2 : iget g'.label w = iget r.label w := ihres.labOther w hw
            rw [h2]
            exact hoth1 w hw
          · -- resOther
            intro x y hx hy
            rw [ihres.resOther x y hx hy]
            exact hres1 (x, y)
          · -- resMono
            intro x hx
            exact le_of_le_of_eq (ihres.resMono x hx) (hres1 (u, x))
          · -- resInto
            intro w hwIR hwu hr'
            have hwIR1 : ({ r with seen := iset r.seen u 0 } : FlowNetwork).InRange
                w := by
              unfold FlowNetwork.InRange at hwIR ⊢
              rw [hnum1]
              exact hwIR
            rcases ihres.resInto w hwIR1 hwu hr' with h | h
            · left
              rw [← hres1 (w, u)]
              exact h
            · right
              exact h
          · -- excFrozen
            intro hcond x hxIR hxu hnadm
            have h2 : iget r.label u ≤ iget g'.label u := ihres.labMono
            have hru : iget r.label u = iget g.label u := by omega
            have hcond1 : iget g'.label u
                = iget ({ r with seen := iset r.seen u 0 } : FlowNetwork).label u := by
              show iget g'.label u = iget r.label u
              omega
            have hxIR1 : ({ r with seen := iset r.seen u 0 } : FlowNetwork).InRange
                x := by
              unfold FlowNetwork.InRange at hxIR ⊢
              rw [hnum1]
              exact hxIR
            have hnadm1 : ¬ ({ r with seen := iset r.seen u 0 }
                : FlowNetwork).Admissible (u, x) := by
              unfold FlowNetwork.Admissible at hnadm ⊢
              rw [hres1 (u, x)]
              rw [show iget ({ r with seen := iset r.seen u 0 } : FlowNetwork).label
                  ((u, x) : GEdge).1 = iget g.label u from hru]
              rw [show iget ({ r with seen := iset r.seen u 0 } : FlowNetwork).label
                  ((u, x) : GEdge).2 = iget g.label x from hoth1 x (by
                    have := hxIR.1
                    omega)]
              exact hnadm
            have hxe := ihres.excFrozen hcond1 x hxIR1 hxu hnadm1
            rw [hxe]
            show iget r.excess x = iget g.excess x
            rw [hexcr]
      · -- scan branch
        rw [if_neg hseen] at hd
        by_cases hbound : 0 ≤ iget g.seen u ∧
            iget g.seen u < ((g.visit u).length : Int)
        · rw [if_pos hbound] at hd
          set v := (g.visit u).getD (iget g.seen u).toNat 0 with hvdef
          have hvmem : v ∈ g.visit u := by
            have hlt : (iget g.seen u).toNat < (g.visit u).length := by omega
            rw [hvdef, List.getD_eq_getElem _ _ hlt]
            exact List.getElem_mem _
          have hvIR : g.InRange v :=
            ⟨(hInv.visitRange u v hvmem).1, (hInv.visitRange u v hvmem).2⟩
          have hvne : v ≠ u := by
            intro hc
            exact hInv.visitNoSelf u (hc ▸ hvmem)
          have hu : g.InRange u := ⟨by omega, hun⟩
          by_cases hadm : g.residual (u, v) > 0 ∧
              iget g.label u = iget g.label v + 1
          · -- push step
            rw [if_pos hadm] at hd
            have huv : u ≠ v := fun hc => hvne hc.symm
            have hInv1 : (g.push (u, v)).LoopInv :=
              push_preserves g u v hInv hu hvIR huv hvmem hpos hadm.1 hadm.2
            obtain ⟨hfn, hford, hfadj, hfav, hfcap, hflab, hfseen, hfexlen⟩ :=
              push_frame g (u, v)
            have ihres := ih (g.push (u, v)) g' hInv1 h2u (by rw [hfn]; exact hun) hd
            have hlab1 : ∀ z : Int, iget (g.push (u, v)).label z = iget g.label z := by
              intro z
              rw [hflab]
            refine ⟨ihres.inv, ihres.num.trans hfn, ihres.cap.trans hfcap,
              ihres.avl.trans hfav, ihres.ord.trans hford, ihres.exc0,
              ?_, ?_, ?_, ?_, ?_, ?_⟩
            · -- labMono
              have h1 := ihres.labMono
              rw [hlab1 u] at h1
              exact h1
            · -- labOther
              intro w hw
              rw [ihres.labOther w hw, hlab1 w]
            · -- resOther
              intro x y hx hy
              rw [ihres.resOther x y hx hy]
              exact push_residual_frame g u v x y (fun hc => hx hc.1) (fun hc => hy hc.2)
            · -- resMono
              intro x hx
              by_cases hxv : x = v
              · rw [hxv]
                have h1 := ihres.resMono v hvne
                have h2 := push_residual_self g u v
                  (capacity_nonneg_of_inv g hInv (u, v))
                have h3 := hadm.1
                omega
              · have heq := push_residual_frame g u v u x (fun hc => hxv hc.2)
                  (fun hc => huv hc.1)
                have h1 := ihres.resMono x hx
                omega
            · -- resInto
              intro w hwIR hwu hr'
              have hwIR1 : (g.push (u, v)).InRange w := by
                unfold FlowNetwork.InRange at hwIR ⊢
                rw [hfn]
                exact hwIR
              rcases ihres.resInto w hwIR1 hwu hr' with h | h
              · by_cases hwv : w = v
                · right
                  have hl1 : iget g'.label w = iget g.label w :=
                    (ihres.labOther w (by
                      have := hwIR.1
                      omega)).trans (hlab1 w)
                  have hl2 := ihres.labMono
                  rw [hlab1 u] at hl2
                  have h3 := hadm.2
                  rw [← hwv] at h3
                  omega
                · left
                  have heq := push_residual_frame g u v w u (fun hc => hwu hc.1)
                    (fun hc => hwv hc.1)
                  rw [← heq]
                  exact h
              · right
                exact h
            · -- excFrozen
              intro hcond x hxIR hxu hnadm
              have hcond1 : iget g'.label u = iget (g.push (u, v)).label u := by
                rw [hlab1 u]
                exact hcond
              have hxv : x ≠ v := by
                intro hc
                apply hnadm
                rw [hc]
                exact ⟨hadm.1, hadm.2⟩
              have hxIR1 : (g.push (u, v)).InRange x := by
                unfold FlowNetwork.InRange at hxIR ⊢
                rw [hfn]
                exact hxIR
              have hnadm1 : ¬ (g.push (u, v)).Admissible (u, x) := by
                unfold FlowNetwork.Admissible at hnadm ⊢
                rw [push_residual_frame g u v u x (fun hc => hxv hc.2)
                  (fun hc => huv hc.1)]
                rw [show iget (g.push (u, v)).label ((u, x) : GEdge).1
                    = iget g.label u from hlab1 u,
                  show iget (g.push (u, v)).label ((u, x) : GEdge).2
                    = iget g.label x from hlab1 x]
                exact hnadm
              have hxe := ihres.excFrozen hcond1 x hxIR1 hxu hnadm1
              rw [hxe]
              rw [push_excess_iget g u v x hu.1 (by rw [hInv.lenExc]; exact hun)
                hvIR.1 (by rw [hInv.lenExc]; exact hvIR.2) huv hxIR.1]
              rw [if_neg hxv, if_neg hxu]
              omega
          · -- advance step
            rw [if_neg hadm] at hd
            have hInv1 : ({ g with seen := iset g.seen u (iget g.seen u + 1) }
                : FlowNetwork).LoopInv := by
              refine ⟨hInv.hnn, hInv.hsmall, hInv.lenLab, hInv.lenExc, ?_,
                hInv.visitRange, hInv.visitSym, hInv.visitNoSelf, hInv.resSupport,
                hInv.valid, hInv.labNonneg, hInv.labBound, hInv.labSrc, hInv.labSink,
                hInv.excUser, hInv.pfBounds, hInv.pfND, hInv.pfSupport, hInv.excEq⟩
              show (((iset g.seen u (iget g.seen u + 1)).length : Nat) : Int)
                = g.numNodes + 2
              rw [length_iset]
              exact hInv.lenSeen
            have ihres := ih ({ g with seen := iset g.seen u (iget g.seen u + 1) })
              g' hInv1 h2u hun hd
            exact ⟨ihres.inv, ihres.num, ihres.cap, ihres.avl, ihres.ord, ihres.exc0,
              ihres.labMono, ihres.labOther, ihres.resOther, ihres.resMono,
              ihres.resInto, ihres.excFrozen⟩
        · -- out-of-bounds seen index
          rw [if_neg hbound] at hd
          exact Option.noConfusion hd
    · -- no excess: discharge is the identity
      rw [if_neg hpos] at hd
      have hg : g = g' := Option.some.inj hd
      subst hg
      exact ⟨hInv, rfl, rfl, rfl, rfl, by omega, le_refl _, fun w _ => rfl,
        fun x y _ _ => rfl, fun x _ => le_refl _, fun w _ _ h => Or.inl h,
        fun _ x _ _ _ => rfl⟩

/-! ## The main relabel-to-front loop -/

theorem mainLoop_spec :
    ∀ (fuel : Nat) (g : FlowNetwork) (q : List Int) (p : Int)
      (g' : FlowNetwork),
    g.LoopInv →
    (∀ x ∈ q, 2 ≤ x ∧ x < g.numNodes + 2) →
    p < (q.length : Int) →
    FlowNetwork.mainLoop fuel g q p = some g' →
    g'.LoopInv ∧ g'.numNodes = g.numNodes ∧ g'.capacity = g.capacity ∧
    (∀ x y : Int, x < 2 → y < 2 → g'.residual (x, y) = g.residual (x, y)) := by
  intro fuel
  induction fuel with
  | zero =>
    intro g q p g' _ _ _ hd
    rw [show FlowNetwork.mainLoop 0 g q p = none from rfl] at hd
    exact Option.noConfusion hd
  | succ fuel ih =>
    intro g q p g' hInv hq hp hd
    simp only [FlowNetwork.mainLoop] at hd
    by_cases hp0 : p ≥ 0
    · rw [if_pos hp0] at hd
      have hpn : p.toNat < q.length := by omega
      have humem : q.getD p.toNat 0 ∈ q := by
        rw [List.getD_eq_getElem _ _ hpn]
        exact List.getElem_mem _
      have hub := hq _ humem
      rcases hdis : FlowNetwork.discharge (fuel + 1) g (q.getD p.toNat 0) with - | h
      · rw [hdis] at hd
        exact Option.noConfusion hd
      · rw [hdis] at hd
        have dspec := discharge_spec (q.getD p.toNat 0) (fuel + 1) g h hInv hub.1
          hub.2 hdis
        have hq1 : ∀ x ∈ q, 2 ≤ x ∧ x < h.numNodes + 2 := by
          intro x hx
          rw [dspec.num]
          exact hq x hx
        have hd2 : (if iget h.label (q.getD p.toNat 0)
              > iget g.label (q.getD p.toNat 0) then
            FlowNetwork.mainLoop fuel h (q.eraseIdx p.toNat ++ [q.getD p.toNat 0])
              ((q.length : Int) - 1)
          else FlowNetwork.mainLoop fuel h q (p - 1)) = some g' := hd
        by_cases hinc : iget h.label (q.getD p.toNat 0)
            > iget g.label (q.getD p.toNat 0)
        · rw [if_pos hinc] at hd2
          have hq2 : ∀ x ∈ q.eraseIdx p.toNat ++ [q.getD p.toNat 0],
              2 ≤ x ∧ x < h.numNodes + 2 := by
            intro x hx
            rcases List.mem_append.mp hx with hx | hx
            · exact hq1 x ((q.eraseIdx_sublist p.toNat).subset hx)
            · rw [List.mem_singleton.mp hx]
              rw [dspec.num]
              exact hub
          have hlen2 : (q.eraseIdx p.toNat ++ [q.getD p.toNat 0]).length
              = q.length := by
            rw [List.length_append, List.length_singleton,
              List.length_eraseIdx_add_one hpn]
          obtain ⟨i1, i2, i3, i4⟩ := ih h (q.eraseIdx p.toNat ++ [q.getD p.toNat 0])
            ((q.length : Int) - 1) g' dspec.inv hq2 (by rw [hlen2]; omega) hd2
          refine ⟨i1, i2.trans dspec.num, i3.trans dspec.cap, ?_⟩
          intro x y hx hy
          rw [i4 x y hx hy]
          exact dspec.resOther x y (by omega) (by omega)
        · rw [if_neg hinc] at hd2
          obtain ⟨i1, i2, i3, i4⟩ := ih h q (p - 1) g' dspec.inv hq1
            (by omega) hd2
          refine ⟨i1, i2.trans dspec.num, i3.trans dspec.cap, ?_⟩
          intro x y hx hy
          rw [i4 x y hx hy]
          exact dspec.resOther x y (by omega) (by omega)
    · rw [if_neg hp0] at hd
      have hg : g = g' := Option.some.inj hd
      subst hg
      exact ⟨hInv, rfl, rfl, fun _ _ _ _ => rfl⟩

/-- The relabel-to-front termination argument: walking the queue with the
two front-loop invariants — every node strictly behind the cursor has zero
excess, and every admissible edge between queue nodes points strictly
toward the front — a completed main loop drains every user node. -/
theorem mainLoop_term :
    ∀ (fuel : Nat) (g : FlowNetwork) (q : List Int) (p : Int)
      (g' : FlowNetwork),
    g.LoopInv →
    (∀ x ∈ q, 2 ≤ x ∧ x < g.numNodes + 2) →
    q.Nodup →
    (∀ v : Int, 2 ≤ v → v < g.numNodes + 2 → v ∈ q) →
    p < (q.length : Int) →
    (∀ i : Nat, i < q.length → p < (i : Int) →
      iget g.excess (q.getD i 0) = 0) →
    (∀ i j : Nat, i < q.length → j < q.length →
      g.Admissible (q.getD i 0, q.getD j 0) → j < i) →
    FlowNetwork.mainLoop fuel g q p = some g' →
    g'.LoopInv ∧ g'.numNodes = g.numNodes ∧
    (∀ v : Int, 2 ≤ v → v < g.numNodes + 2 → iget g'.excess v = 0) := by
  intro fuel
  induction fuel with
  | zero =>
    intro g q p g' _ _ _ _ _ _ _ hd
    rw [show FlowNetwork.mainLoop 0 g q p = none from rfl] at hd
    exact Option.noConfusion hd
  | succ fuel ih =>
    intro g q p g' hInv hq hnd hcomp hp hZ hT hd
    simp only [FlowNetwork.mainLoop] at hd
    by_cases hp0 : p ≥ 0
    · rw [if_pos hp0] at hd
      have hpn : p.toNat < q.length := by omega
      have humem : q.getD p.toNat 0 ∈ q := by
        rw [List.getD_eq_getElem _ _ hpn]
        exact List.getElem_mem _
      have hub := hq _ humem
      rcases hdis : FlowNetwork.discharge (fuel + 1) g (q.getD p.toNat 0)
        with - | h
      · rw [hdis] at hd
        exact Option.noConfusion hd
      · rw [hdis] at hd
        have dspec := discharge_spec (q.getD p.toNat 0) (fuel + 1) g h hInv
          hub.1 hub.2 hdis
        have hq1 : ∀ x ∈ q, 2 ≤ x ∧ x < h.numNodes + 2 := by
          intro x hx
          rw [dspec.num]
          exact hq x hx
        have hcomp1 : ∀ v : Int, 2 ≤ v → v < h.numNodes + 2 → v ∈ q := by
          intro v h1 h2
          rw [dspec.num] at h2
          exact hcomp v h1 h2
        have hmemrange : ∀ i : Nat, i < q.length → g.InRange (q.getD i 0) := by
          intro i hi
          have hm : q.getD i 0 ∈ q := by
            rw [List.getD_eq_getElem _ _ hi]
            exact List.getElem_mem _
          exact ⟨by have := (hq _ hm).1; omega, (hq _ hm).2⟩
        have hgetne : ∀ i j : Nat, i < q.length → j < q.length → i ≠ j →
            q.getD i 0 ≠ q.getD j 0 := by
          intro i j hi hj hij hc
          rw [List.getD_eq_getElem _ _ hi, List.getD_eq_getElem _ _ hj] at hc
          exact hij (hnd.getElem_inj_iff.mp hc)
        have hd2 : (if iget h.label (q.getD p.toNat 0)
              > iget g.label (q.getD p.toNat 0) then
            FlowNetwork.mainLoop fuel h (q.eraseIdx p.toNat ++ [q.getD p.toNat 0])
              ((q.length : Int) - 1)
          else FlowNetwork.mainLoop fuel h q (p - 1)) = some g' := hd
        by_cases hinc : iget h.label (q.getD p.toNat 0)
            > iget g.label (q.getD p.toNat 0)
        · -- the discharged node was relabelled: it moves to the back
          rw [if_pos hinc] at hd2
          have hlenE : (q.eraseIdx p.toNat).length = q.length - 1 :=
            List.length_eraseIdx_of_lt hpn
          have hlen2 : (q.eraseIdx p.toNat ++ [q.getD p.toNat 0]).length
              = q.length := by
            rw [List.length_append, List.length_singleton, hlenE]
            omega
          have herase : q.eraseIdx p.toNat
              = q.take p.toNat ++ q.drop (p.toNat + 1) :=
            List.eraseIdx_eq_take_drop_succ q p.toNat
          have hqdecomp : q = q.take p.toNat
              ++ q.getD p.toNat 0 :: q.drop (p.toNat + 1) := by
            rw [List.getD_eq_getElem _ _ hpn,
              List.getElem_cons_drop q p.toNat hpn, List.take_append_drop]
          have hundup : q.getD p.toNat 0 ∉ q.eraseIdx p.toNat := by
            rw [herase]
            have hmid : (q.take p.toNat
                ++ q.getD p.toNat 0 :: q.drop (p.toNat + 1)).Nodup := by
              rw [← hqdecomp]
              exact hnd
            exact (List.nodup_cons.mp (List.nodup_middle.mp hmid)).1
          have hnd2 : (q.eraseIdx p.toNat ++ [q.getD p.toNat 0]).Nodup := by
            have h1 : (q.eraseIdx p.toNat).Nodup :=
              (List.eraseIdx_sublist q p.toNat).nodup hnd
            rw [show q.eraseIdx p.toNat ++ [q.getD p.toNat 0]
                = q.eraseIdx p.toNat ++ q.getD p.toNat 0 :: [] from rfl,
              List.nodup_middle, List.append_nil]
            exact List.nodup_cons.mpr ⟨hundup, h1⟩
          have hmem2 : ∀ x ∈ q, x ∈ q.eraseIdx p.toNat ++ [q.getD p.toNat 0] := by
            intro x hx
            by_cases hxu : x = q.getD p.toNat 0
            · refine List.mem_append.mpr (Or.inr ?_)
              rw [hxu]
              exact List.mem_singleton.mpr rfl
            · refine List.mem_append.mpr (Or.inl ?_)
              rw [herase]
              rw [hqdecomp] at hx
              rcases List.mem_append.mp hx with h1 | h1
              · exact List.mem_append.mpr (Or.inl h1)
              · rcases List.mem_cons.mp h1 with h2 | h2
                · exact absurd h2 hxu
                · exact List.mem_append.mpr (Or.inr h2)
          have hcomp2 : ∀ v : Int, 2 ≤ v → v < h.numNodes + 2 →
              v ∈ q.eraseIdx p.toNat ++ [q.getD p.toNat 0] :=
            fun v h1 h2 => hmem2 v (hcomp1 v h1 h2)
          have hq2b : ∀ x ∈ q.eraseIdx p.toNat ++ [q.getD p.toNat 0],
              2 ≤ x ∧ x < h.numNodes + 2 := by
            intro x hx
            rcases List.mem_append.mp hx with hx | hx
            · exact hq1 x ((List.eraseIdx_sublist q p.toNat).subset hx)
            · rw [List.mem_singleton.mp hx]
              exact hq1 _ humem
          -- indexing in the new queue
          have hgetlast : ∀ i : Nat, i < q.length → ¬ i < q.length - 1 →
              (q.eraseIdx p.toNat ++ [q.getD p.toNat 0]).getD i 0
                = q.getD p.toNat 0 := by
            intro i hi hige
            rw [List.getD_eq_getElem (q.eraseIdx p.toNat ++ [q.getD p.toNat 0]) 0
                (show i < (q.eraseIdx p.toNat ++ [q.getD p.toNat 0]).length
                  by rw [hlen2]; omega),
              List.getElem_append_right
                (show (q.eraseIdx p.toNat).length ≤ i by rw [hlenE]; omega)]
            have : i - (q.eraseIdx p.toNat).length = 0 := by
              rw [hlenE]
              omega
            simp [this]
          have hgetlt : ∀ i : Nat, i < q.length - 1 →
              (q.eraseIdx p.toNat ++ [q.getD p.toNat 0]).getD i 0
                = q.getD (if i < p.toNat then i else i + 1) 0 := by
            intro i hi
            rw [List.getD_eq_getElem (q.eraseIdx p.toNat ++ [q.getD p.toNat 0]) 0
                (show i < (q.eraseIdx p.toNat ++ [q.getD p.toNat 0]).length
                  by rw [hlen2]; omega),
              List.getElem_append_left
                (show i < (q.eraseIdx p.toNat).length by rw [hlenE]; omega)]
            by_cases hip : i < p.toNat
            · rw [if_pos hip,
                List.getElem_eraseIdx_of_lt q p.toNat i
                  (show i < (q.eraseIdx p.toNat).length by rw [hlenE]; omega) hip]
              exact (List.getD_eq_getElem q 0 (show i < q.length by omega)).symm
            · rw [if_neg hip,
                List.getElem_eraseIdx_of_ge q p.toNat i
                  (show i < (q.eraseIdx p.toNat).length by rw [hlenE]; omega)
                  (by omega)]
              exact (List.getD_eq_getElem q 0
                (show i + 1 < q.length by omega)).symm
          have hZ2 : ∀ i : Nat,
              i < (q.eraseIdx p.toNat ++ [q.getD p.toNat 0]).length →
              (q.length : Int) - 1 < (i : Int) →
              iget h.excess ((q.eraseIdx p.toNat ++ [q.getD p.toNat 0]).getD i 0)
                = 0 := by
            intro i hi hip
            rw [hlen2] at hi
            omega
          have hT2 : ∀ i j : Nat,
              i < (q.eraseIdx p.toNat ++ [q.getD p.toNat 0]).length →
              j < (q.eraseIdx p.toNat ++ [q.getD p.toNat 0]).length →
              h.Admissible ((q.eraseIdx p.toNat ++ [q.getD p.toNat 0]).getD i 0,
                (q.eraseIdx p.toNat ++ [q.getD p.toNat 0]).getD j 0) →
              j < i := by
            intro i j hi hj hadm
            rw [hlen2] at hi hj
            by_cases hj1 : j < q.length - 1
            · by_cases hi1 : i < q.length - 1
              · -- neither endpoint is the relabelled node
                rw [hgetlt i hi1, hgetlt j hj1] at hadm
                have hioldlt : (if i < p.toNat then i else i + 1) < q.length := by
                  split_ifs <;> omega
                have hjoldlt : (if j < p.toNat then j else j + 1) < q.length := by
                  split_ifs <;> omega
                have hine : (if i < p.toNat then i else i + 1) ≠ p.toNat := by
                  split_ifs <;> omega
                have hjne : (if j < p.toNat then j else j + 1) ≠ p.toNat := by
                  split_ifs <;> omega
                have hxni : q.getD (if i < p.toNat then i else i + 1) 0
                    ≠ q.getD p.toNat 0 := hgetne _ _ hioldlt hpn hine
                have hxnj : q.getD (if j < p.toNat then j else j + 1) 0
                    ≠ q.getD p.toNat 0 := hgetne _ _ hjoldlt hpn hjne
                have hadm1 : h.residual
                    (q.getD (if i < p.toNat then i else i + 1) 0,
                     q.getD (if j < p.toNat then j else j + 1) 0) > 0 := hadm.1
                have hadm2 : iget h.label
                      (q.getD (if i < p.toNat then i else i + 1) 0)
                    = iget h.label
                      (q.getD (if j < p.toNat then j else j + 1) 0) + 1 := hadm.2
                have hadmg : g.Admissible
                    (q.getD (if i < p.toNat then i else i + 1) 0,
                     q.getD (if j < p.toNat then j else j + 1) 0) := by
                  refine ⟨?_, ?_⟩
                  · rw [← dspec.resOther _ _ hxni hxnj]
                    exact hadm1
                  · show iget g.label _ = iget g.label _ + 1
                    rw [← dspec.labOther _ (by
                        have h1 := (hmemrange _ hioldlt).1
                        have h2 := (hmemrange p.toNat hpn).1
                        omega),
                      ← dspec.labOther _ (by
                        have h1 := (hmemrange _ hjoldlt).1
                        have h2 := (hmemrange p.toNat hpn).1
                        omega)]
                    exact hadm2
                have := hT _ _ hioldlt hjoldlt hadmg
                split_ifs at this <;> omega
              · -- edge out of the relabelled node: it sits at the very back
                omega
            · by_cases hi1 : i < q.length - 1
              · -- an admissible edge into the freshly relabelled node is
                -- impossible
                exfalso
                rw [hgetlt i hi1, hgetlast j (by omega) hj1] at hadm
                have hioldlt : (if i < p.toNat then i else i + 1) < q.length := by
                  split_ifs <;> omega
                have hine : (if i < p.toNat then i else i + 1) ≠ p.toNat := by
                  split_ifs <;> omega
                have hxni : q.getD (if i < p.toNat then i else i + 1) 0
                    ≠ q.getD p.toNat 0 := hgetne _ _ hioldlt hpn hine
                have hadm1 : h.residual
                    (q.getD (if i < p.toNat then i else i + 1) 0,
                     q.getD p.toNat 0) > 0 := hadm.1
                have hadm2 : iget h.label
                      (q.getD (if i < p.toNat then i else i + 1) 0)
                    = iget h.label (q.getD p.toNat 0) + 1 := hadm.2
                have hlabeq : iget h.label
                      (q.getD (if i < p.toNat then i else i + 1) 0)
                    = iget g.label
                      (q.getD (if i < p.toNat then i else i + 1) 0) :=
                  dspec.labOther _ (by
                    have h1 := (hmemrange _ hioldlt).1
                    have h2 := (hmemrange p.toNat hpn).1
                    omega)
                rcases dspec.resInto _ (hmemrange _ hioldlt) hxni hadm1
                  with hg | hlt
                · have hnex : ¬(q.getD (if i < p.toNat then i else i + 1) 0
                      = sourceID ∧ q.getD p.toNat 0 = sinkID) := by
                    rintro ⟨h1, -⟩
                    have h4 := (hq (q.getD (if i < p.toNat then i else i + 1) 0)
                      (by
                        rw [List.getD_eq_getElem q 0 hioldlt]
                        exact List.getElem_mem _)).1
                    have h3 : q.getD (if i < p.toNat then i else i + 1) 0
                        = (0 : Int) := h1
                    omega
                  have hval := hInv.valid _ _ (hmemrange _ hioldlt)
                    (hmemrange p.toNat hpn) hnex hg
                  omega
                · omega
              · -- both indices point at the back: the self edge is
                -- inadmissible
                exfalso
                rw [hgetlast i (by omega) hi1, hgetlast j (by omega) hj1] at hadm
                have hadm2 : iget h.label (q.getD p.toNat 0)
                    = iget h.label (q.getD p.toNat 0) + 1 := hadm.2
                omega
          obtain ⟨i1, i2, i3⟩ := ih h (q.eraseIdx p.toNat ++ [q.getD p.toNat 0])
            ((q.length : Int) - 1) g' dspec.inv hq2b hnd2 hcomp2
            (by rw [hlen2]; omega) hZ2 hT2 hd2
          exact ⟨i1, i2.trans dspec.num,
            fun v h1 h2 => i3 v h1 (by rw [dspec.num]; exact h2)⟩
        · -- no relabel: the cursor simply moves forward
          rw [if_neg hinc] at hd2
          have hlabu : iget h.label (q.getD p.toNat 0)
              = iget g.label (q.getD p.toNat 0) := by
            have := dspec.labMono
            omega
          have hZ1 : ∀ i : Nat, i < q.length → p - 1 < (i : Int) →
              iget h.excess (q.getD i 0) = 0 := by
            intro i hi hpi
            by_cases hieq : (i : Int) = p
            · have hip : i = p.toNat := by omega
              rw [hip]
              have h1 := dspec.exc0
              have h2 := dspec.inv.excUser (q.getD p.toNat 0) hub.1
                (by rw [dspec.num]; exact hub.2)
              omega
            · have hip : p < (i : Int) := by omega
              have hne : q.getD i 0 ≠ q.getD p.toNat 0 :=
                hgetne _ _ hi hpn (by omega)
              have hnadm : ¬ g.Admissible (q.getD p.toNat 0, q.getD i 0) := by
                intro hadm
                have := hT p.toNat i hpn hi hadm
                omega
              rw [dspec.excFrozen hlabu (q.getD i 0) (hmemrange i hi) hne hnadm]
              exact hZ i hi hip
          have hT1 : ∀ i j : Nat, i < q.length → j < q.length →
              h.Admissible (q.getD i 0, q.getD j 0) → j < i := by
            intro i j hi hj hadm
            have hadm1 : h.residual (q.getD i 0, q.getD j 0) > 0 := hadm.1
            have hadm2 : iget h.label (q.getD i 0)
                = iget h.label (q.getD j 0) + 1 := hadm.2
            by_cases hiu : i = p.toNat
            · rw [hiu] at hadm1 hadm2
              by_cases hju : j = p.toNat
              · rw [hju] at hadm2
                omega
              · have hnej : q.getD j 0 ≠ q.getD p.toNat 0 :=
                  hgetne _ _ hj hpn hju
                have hadmg : g.Admissible (q.getD p.toNat 0, q.getD j 0) := by
                  refine ⟨?_, ?_⟩
                  · have hmono := dspec.resMono (q.getD j 0) hnej
                    omega
                  · show iget g.label _ = iget g.label _ + 1
                    rw [← dspec.labOther (q.getD j 0) (by
                        have h1 := (hmemrange j hj).1
                        have h2 := (hmemrange p.toNat hpn).1
                        omega)]
                    rw [← hlabu]
                    exact hadm2
                have := hT p.toNat j hpn hj hadmg
                omega
            · by_cases hju : j = p.toNat
              · rw [hju] at hadm1 hadm2
                have hnei : q.getD i 0 ≠ q.getD p.toNat 0 :=
                  hgetne _ _ hi hpn hiu
                have hlabeqi : iget h.label (q.getD i 0)
                    = iget g.label (q.getD i 0) :=
                  dspec.labOther _ (by
                    have h1 := (hmemrange i hi).1
                    have h2 := (hmemrange p.toNat hpn).1
                    omega)
                rcases dspec.resInto (q.getD i 0) (hmemrange i hi) hnei hadm1
                  with hg | hlt
                · have hadmg : g.Admissible (q.getD i 0, q.getD p.toNat 0) := by
                    refine ⟨hg, ?_⟩
                    show iget g.label _ = iget g.label _ + 1
                    rw [← hlabeqi, ← hlabu]
                    exact hadm2
                  have := hT i p.toNat hi hpn hadmg
                  omega
                · exfalso
                  omega
              · have hnei : q.getD i 0 ≠ q.getD p.toNat 0 :=
                  hgetne _ _ hi hpn hiu
                have hnej : q.getD j 0 ≠ q.getD p.toNat 0 :=
                  hgetne _ _ hj hpn hju
                have hadmg : g.Admissible (q.getD i 0, q.getD j 0) := by
                  refine ⟨?_, ?_⟩
                  · rw [← dspec.resOther _ _ hnei hnej]
                    exact hadm1
                  · show iget g.label _ = iget g.label _ + 1
                    rw [← dspec.labOther _ (by
                        have h1 := (hmemrange i hi).1
                        have h2 := (hmemrange p.toNat hpn).1
                        omega),
                      ← dspec.labOther _ (by
                        have h1 := (hmemrange j hj).1
                        have h2 := (hmemrange p.toNat hpn).1
                        omega)]
                    exact hadm2
                exact hT i j hi hj hadmg
          obtain ⟨i1, i2, i3⟩ := ih h q (p - 1) g' dspec.inv hq1 hnd hcomp1
            (by omega) hZ1 hT1 hd2
          exact ⟨i1, i2.trans dspec.num,
            fun v h1 h2 => i3 v h1 (by rw [dspec.num]; exact h2)⟩
    · -- cursor exhausted: every queue entry is behind it, hence drained
      rw [if_neg hp0] at hd
      have hg : g = g' := Option.some.inj hd
      subst hg
      refine ⟨hInv, rfl, fun v h1 h2 => ?_⟩
      obtain ⟨i, hi, hiv⟩ := List.getElem_of_mem (hcomp v h1 h2)
      have := hZ i hi (by omega)
      rw [List.getD_eq_getElem _ _ hi, hiv] at this
      exact this

/-! ## Residual paths in the final state -/

theorem PathR_nil_eq (g : FlowNetwork) (u w : Int) (hp : g.PathR u [] w) :
    u = w := by
  cases hp
  rfl

theorem PathR_suffix (g : FlowNetwork) :
    ∀ (l1 : List Int) (z : Int) (l2 : List Int) (u w : Int),
    g.PathR u (l1 ++ z :: l2) w → g.PathR z l2 w := by
  intro l1
  induction l1 with
  | nil =>
    intro z l2 u w hp
    cases hp with
    | cons hstep htail => exact htail
  | cons a t1 ih =>
    intro z l2 u w hp
    cases hp with
    | cons hstep htail => exact ih z l2 a w htail

theorem PathR_mem_range (g : FlowNetwork) :
    ∀ (l : List Int) (x w : Int), g.PathR x l w → ∀ z ∈ l, g.InRange z := by
  intro l
  induction l with
  | nil =>
    intro x w _ z hz
    exact absurd hz (List.not_mem_nil z)
  | cons y t ih =>
    intro x w hp z hz
    cases hp with
    | cons hstep htail =>
      rcases List.mem_cons.mp hz with rfl | hz'
      · exact ⟨hstep.1, hstep.2.1⟩
      · exact ih y w htail z hz'

/-- Every residual path can be shortened to one that repeats no node and in
particular never revisits its start. -/
theorem PathR_to_nodup (g : FlowNetwork) :
    ∀ (l : List Int) (x w : Int), g.PathR x l w →
      ∃ l', g.PathR x l' w ∧ (x :: l').Nodup ∧ ∀ z ∈ l', z ∈ l := by
  intro l
  induction l with
  | nil =>
    intro x w hp
    exact ⟨[], hp, List.nodup_cons.mpr ⟨List.not_mem_nil x, List.nodup_nil⟩,
      fun z hz => absurd hz (List.not_mem_nil z)⟩
  | cons y t ih =>
    intro x w hp
    cases hp with
    | cons hstep htail =>
      obtain ⟨t', hpt', hnd', hsub'⟩ := ih y w htail
      have hsub2 : ∀ z ∈ y :: t', z ∈ y :: t := by
        intro z hz
        rcases List.mem_cons.mp hz with rfl | hz'
        · exact List.mem_cons_self _ _
        · exact List.mem_cons_of_mem _ (hsub' z hz')
      by_cases hx : x ∈ y :: t'
      · obtain ⟨a, b, hab⟩ := List.append_of_mem hx
        have hpfull : g.PathR x (y :: t') w := FlowNetwork.PathR.cons hstep hpt'
        rw [hab] at hpfull
        have hpb : g.PathR x b w := PathR_suffix g a x b x w hpfull
        have hndb : (x :: b).Nodup := by
          have hsubl : (x :: b).Sublist (a ++ x :: b) := List.sublist_append_right a _
          rw [← hab] at hsubl
          exact hnd'.sublist hsubl
        refine ⟨b, hpb, hndb, fun z hz => ?_⟩
        have : z ∈ y :: t' := by
          rw [hab]
          exact List.mem_append.mpr (Or.inr (List.mem_cons_of_mem _ hz))
        exact hsub2 z this
      · refine ⟨y :: t', FlowNetwork.PathR.cons hstep hpt', ?_, hsub2⟩
        exact List.nodup_cons.mpr ⟨hx, hnd'⟩

theorem PathR_label_bound (g : FlowNetwork) (hInv : g.LoopInv)
    (hres0 : ¬ g.residual (sourceID, sinkID) > 0) :
    ∀ (l : List Int) (x : Int), g.InRange x → g.PathR x l sinkID →
      iget g.label x ≤ (l.length : Int) := by
  intro l
  induction l with
  | nil =>
    intro x _ hp
    have hx := PathR_nil_eq g x sinkID hp
    rw [hx, hInv.labSink]
    simp
  | cons y t ih =>
    intro x hx hp
    cases hp with
    | cons hstep htail =>
      have hyIR : g.InRange y := ⟨hstep.1, hstep.2.1⟩
      have hres : g.residual (x, y) > 0 := hstep.2.2
      have hval : iget g.label x ≤ iget g.label y + 1 := by
        refine hInv.valid x y hx hyIR ?_ hres
        rintro ⟨h1, h2⟩
        rw [h1, h2] at hres
        exact hres0 hres
      have hb := ih y hyIR htail
      simp only [List.length_cons]
      push_cast
      omega

/-- A duplicate-free list of in-range nodes avoiding the source has at most
`numNodes + 1` entries. -/
theorem nodup_range_card (N : Int) (hN : 0 < N) (l : List Int) (hnd : l.Nodup)
    (hmem : ∀ x ∈ l, 0 ≤ x ∧ x < N) (hnosrc : sourceID ∉ l) :
    (l.length : Int) ≤ N - 1 := by
  have hsub : l.toFinset ⊆ (Finset.Ico (0 : Int) N).erase sourceID := by
    intro x hx
    rw [List.mem_toFinset] at hx
    rw [Finset.mem_erase, Finset.mem_Ico]
    exact ⟨fun hc => hnosrc (hc ▸ hx), hmem x hx⟩
  have hcard := Finset.card_le_card hsub
  have h1 : l.toFinset.card = l.length := by
    rw [List.card_toFinset, hnd.dedup]
  have h2 : ((Finset.Ico (0 : Int) N).erase sourceID).card
      = (Finset.Ico (0 : Int) N).card - 1 := by
    refine Finset.card_erase_of_mem ?_
    rw [Finset.mem_Ico]
    constructor
    · simp [sourceID]
    · simp only [sourceID]
      omega
  have h3 : (Finset.Ico (0 : Int) N).card = N.toNat := by
    rw [Int.card_Ico]
    omega
  rw [h1, h2, h3] at hcard
  omega

/-- In a state satisfying the loop invariant whose residual graph has no
direct source-to-sink slack, the sink is unreachable from the source. -/
theorem no_reach_of_inv (g : FlowNetwork) (hInv : g.LoopInv)
    (hres0 : ¬ g.residual (sourceID, sinkID) > 0) :
    ¬ g.Reaches sourceID sinkID := by
  rintro ⟨l, hp⟩
  obtain ⟨l', hp', hnd, -⟩ := PathR_to_nodup g l sourceID sinkID hp
  have hnosrc : sourceID ∉ l' := (List.nodup_cons.mp hnd).1
  have hnd' : l'.Nodup := (List.nodup_cons.mp hnd).2
  have hmem := PathR_mem_range g l' sourceID sinkID hp'
  have hnn := hInv.hnn
  have hsrcIR : g.InRange sourceID := by
    unfold FlowNetwork.InRange
    simp only [sourceID]
    omega
  have hbound := PathR_label_bound g hInv hres0 l' sourceID hsrcIR hp'
  have hcard := nodup_range_card (g.numNodes + 2) (by omega) l' hnd'
    (fun x hx => ⟨(hmem x hx).1, (hmem x hx).2⟩) hnosrc
  have hsrc := hInv.labSrc
  omega

/-! ## Evaluating `AddEdge` on valid user endpoints in automatic mode -/

/-- On valid user endpoints with both pseudonode modes automatic,
`AddEdge` succeeds and performs exactly: record the edge, then delete the
auto-wired source edge into `to` and the auto-wired sink edge out of
`from`. -/
theorem AddEdge_auto_ok (g : FlowNetwork) (f t cap : Int)
    (hf0 : 0 ≤ f) (hf1 : f < g.numNodes) (ht0 : 0 ≤ t) (ht1 : t < g.numNodes)
    (hms : g.manualSource = false) (hmk : g.manualSink = false) :
    g.AddEdge f t cap = .ok
      { g with
        capacity := mdel (mdel (mset g.capacity (f + 2, t + 2) cap) (sourceID, t + 2))
          (f + 2, sinkID)
        adjacencyList := adjDel (adjDel (adjAdd g.adjacencyList (f + 2) (t + 2))
          sourceID (t + 2)) (f + 2) sinkID } := by
  have hfS : f ≠ Source := by simp only [Source]; omega
  have hfK : f ≠ Sink := by simp only [Sink]; omega
  have htS : t ≠ Source := by simp only [Source]; omega
  have htK : t ≠ Sink := by simp only [Sink]; omega
  simp only [FlowNetwork.AddEdge, FlowNetwork.addEdgeRaw]
  rw [if_neg (by push_neg; constructor <;> omega)]
  rw [if_neg (by push_neg; constructor <;> omega)]
  rw [if_neg htS, if_neg hfK, if_neg hfS, if_neg htK]
  simp only [hms, hmk, Bool.false_eq_true, if_false]

/-! ## Scenario claims -/

/-- **C1** (counterexample).  The claim fails as stated: a well-formed
network built through the public API can carry a direct `Source → Sink`
capacity edge (enter manual-sink mode with `AddEdge(0, Sink, 3)`, then call
`AddEdge(Source, Sink, 5)`); `reset` never saturates that edge, no user
node can drain it, so after `PushRelabel` returns the residual graph still
has the positive-residual edge `(Source, Sink)` — a one-step augmenting
path from source to sink. -/
theorem claim_C1_counterexample :
    isOkE ((FlowNetwork.newFlowNetwork 1).AddEdge 0 Sink 3) = true ∧
    isOkE ((Circulation.addEdgeIgnoringError (FlowNetwork.newFlowNetwork 1)
      0 Sink 3).AddEdge Source Sink 5) = true ∧
    ssNet.WellFormed ∧
    (FlowNetwork.PushRelabel 12 ssNet).isSome = true ∧
    FlowNetwork.Reaches ((FlowNetwork.PushRelabel 12 ssNet).getD default)
      sourceID sinkID := by
  refine ⟨by decide, by decide, by decide, by decide, ?_⟩
  exact ⟨[sinkID], FlowNetwork.PathR.cons ⟨by decide, by decide, by decide⟩
    (FlowNetwork.PathR.nil sinkID)⟩

/-- **C1** (amended).  For every well-formed flow network with no capacity
recorded on the direct `(Source, Sink)` pair, after `PushRelabel` returns
the residual graph contains no augmenting path from the source pseudonode
to the sink pseudonode. -/
theorem claim_C1 (g : Flownet.FlowNetwork) (fuel : Nat) (g' : Flownet.FlowNetwork)
    (hWF : g.WellFormed) (hss : mget g.capacity (sourceID, sinkID) = 0)
    (hrun : FlowNetwork.PushRelabel fuel g = some g') :
    ¬ g'.Reaches sourceID sinkID := by
  obtain ⟨hInv, hordmem, -, -⟩ := reset_establishes g hWF
  obtain ⟨w1, w2, w3, w4, w5, w6, w7, w8, w9, w10, w11, w12⟩ := hWF
  obtain ⟨hA, hB, hC, hD, hE, hF⟩ := reset_core g w1 w4
  have hres0 : FlowNetwork.residual (FlowNetwork.reset g) (sourceID, sinkID) = 0 := by
    unfold FlowNetwork.residual
    have hcap' : mget (FlowNetwork.reset g).capacity (sourceID, sinkID) = 0 := by
      rw [hA (sourceID, sinkID)]
      rw [if_neg ?hq]
      case hq =>
        rintro ⟨-, hq2, -⟩
        have := (mem_userIDs g _).mp hq2
        simp only [sinkID] at this
        omega
      exact hss
    rw [if_pos hcap']
    simp only [erev]
    rw [hC (sinkID, sourceID)]
    rw [if_neg ?hq2]
    case hq2 =>
      rintro ⟨h1, -, -⟩
      have h2 : (1 : Int) = 0 := h1
      omega
  have hml := mainLoop_spec fuel (FlowNetwork.reset g)
    (FlowNetwork.reset g).nodeOrder
    (((FlowNetwork.reset g).nodeOrder.length : Int) - 1) g' hInv hordmem
    (by omega) hrun
  refine no_reach_of_inv g' hml.1 ?_
  rw [hml.2.2.2 sourceID sinkID (by decide) (by decide), hres0]
  omega

/-- Witness: `claim_C1` applied at the concrete two-node auto-wired
network, which records no `(Source, Sink)` capacity. -/
theorem claim_C1_witness :
    ¬ FlowNetwork.Reaches ((FlowNetwork.PushRelabel 12 smallNet).getD default)
      sourceID sinkID :=
  claim_C1 smallNet 12 _ (by decide) (by decide) (by rfl)

/-- **C3.** For every well-formed network, whenever `PushRelabel` returns,
every recorded (non-reverse) edge `e` of the result satisfies
`0 ≤ preflow[e] ≤ capacity[e]`. -/
theorem claim_C3 (g : Flownet.FlowNetwork) (fuel : Nat) (g' : Flownet.FlowNetwork)
    (hWF : g.WellFormed) (hrun : FlowNetwork.PushRelabel fuel g = some g') :
    ∀ e : GEdge, mhas g'.capacity e = true →
      0 ≤ mget g'.preflow e ∧ mget g'.preflow e ≤ mget g'.capacity e := by
  obtain ⟨hInv, hordmem, -, -⟩ := reset_establishes g hWF
  have hml := mainLoop_spec fuel (FlowNetwork.reset g)
    (FlowNetwork.reset g).nodeOrder
    (((FlowNetwork.reset g).nodeOrder.length : Int) - 1) g' hInv hordmem
    (by omega) hrun
  exact fun e he => (hml.1).pfBounds e he

/-- Witness: `claim_C3` applied at the concrete two-node auto-wired
network. -/
theorem claim_C3_witness :
    0 ≤ mget ((FlowNetwork.PushRelabel 12 smallNet).getD default).preflow (0, 2) ∧
      mget ((FlowNetwork.PushRelabel 12 smallNet).getD default).preflow (0, 2)
        ≤ mget ((FlowNetwork.PushRelabel 12 smallNet).getD default).capacity (0, 2) :=
  claim_C3 smallNet 12 _ (by decide) (by rfl) (0, 2) (by decide)

/-- **C4.** For every well-formed network, whenever `PushRelabel` returns,
flow is conserved at every non-pseudo node `v` of the result: the preflow
entering `v` equals the preflow leaving `v`. -/
theorem claim_C4 (g : Flownet.FlowNetwork) (fuel : Nat) (g' : Flownet.FlowNetwork)
    (hWF : g.WellFormed) (hrun : FlowNetwork.PushRelabel fuel g = some g') :
    ∀ v : Int, 2 ≤ v → v < g'.numNodes + 2 →
      FlowNetwork.inflow g'.preflow v = FlowNetwork.outflowFrom g'.preflow v := by
  obtain ⟨hInv, ho1, ho2, hnum⟩ := reset_establishes g hWF
  obtain ⟨w1, w2, w3, w4, w5, w6, w7, w8, w9, w10, w11, w12⟩ := hWF
  obtain ⟨f1, f2, f3, f4, f5, f6, f7⟩ := reset_frame g
  have hnd : (FlowNetwork.reset g).nodeOrder.Nodup := by
    rw [f2]
    exact resetOrder_nodup g w1 w11
  have hlab0 : ∀ x : Int, 2 ≤ x →
      iget (FlowNetwork.reset g).label x = 0 := by
    intro x hx
    rw [f5, resetLabels_iget g w3 w1 x, if_neg (by omega)]
  have hZ0 : ∀ i : Nat, i < (FlowNetwork.reset g).nodeOrder.length →
      (((FlowNetwork.reset g).nodeOrder.length : Int) - 1) < (i : Int) →
      iget (FlowNetwork.reset g).excess
        ((FlowNetwork.reset g).nodeOrder.getD i 0) = 0 := by
    intro i hi hip
    omega
  have hT0 : ∀ i j : Nat, i < (FlowNetwork.reset g).nodeOrder.length →
      j < (FlowNetwork.reset g).nodeOrder.length →
      (FlowNetwork.reset g).Admissible
        ((FlowNetwork.reset g).nodeOrder.getD i 0,
         (FlowNetwork.reset g).nodeOrder.getD j 0) → j < i := by
    intro i j hi hj hadm
    exfalso
    have hmi : (FlowNetwork.reset g).nodeOrder.getD i 0
        ∈ (FlowNetwork.reset g).nodeOrder := by
      rw [List.getD_eq_getElem _ _ hi]
      exact List.getElem_mem _
    have hmj : (FlowNetwork.reset g).nodeOrder.getD j 0
        ∈ (FlowNetwork.reset g).nodeOrder := by
      rw [List.getD_eq_getElem _ _ hj]
      exact List.getElem_mem _
    have hadm2 : iget (FlowNetwork.reset g).label
          ((FlowNetwork.reset g).nodeOrder.getD i 0)
        = iget (FlowNetwork.reset g).label
          ((FlowNetwork.reset g).nodeOrder.getD j 0) + 1 := hadm.2
    rw [hlab0 _ (ho1 _ hmi).1, hlab0 _ (ho1 _ hmj).1] at hadm2
    omega
  obtain ⟨hInv2, hnum2, hzero⟩ := mainLoop_term fuel (FlowNetwork.reset g)
    (FlowNetwork.reset g).nodeOrder
    (((FlowNetwork.reset g).nodeOrder.length : Int) - 1) g' hInv ho1 hnd ho2
    (by omega) hZ0 hT0 hrun
  intro v h1 h2
  rw [hnum2] at h2
  have hE := hInv2.excEq v h1 (by rw [hnum2]; exact h2)
  have h0 := hzero v h1 h2
  omega

/-- Witness: `claim_C4` applied at the concrete two-node auto-wired
network. -/
theorem claim_C4_witness :
    FlowNetwork.inflow ((FlowNetwork.PushRelabel 12 smallNet).getD default).preflow 2
      = FlowNetwork.outflowFrom
          ((FlowNetwork.PushRelabel 12 smallNet).getD default).preflow 2 :=
  claim_C4 smallNet 12 _ (by decide) (by rfl) 2 (by decide) (by decide)

/-- **C2.** On a fresh 6-node `FlowNetwork` with the Scenario-1 edges, one
call to `PushRelabel` terminates and yields `Outflow() = 14` with per-edge
flows `(0,1)=10, (0,2)=4, (1,3)=10, (3,2)=3, (2,4)=7, (4,1)=0, (4,5)=7,
(3,5)=7`, exactly as the spec states. -/
theorem claim_C2 :
    scenario1Run.map FlowNetwork.Outflow = some 14 ∧
    scenario1Run.map (fun g => scenario1Edges.map (fun e => g.Flow e.1 e.2.1))
      = some [10, 4, 10, 3, 7, 0, 7, 7] := by
  constructor <;> decide

/-- **C6.** Evaluation of `TopSort` at the failing input: on a fresh 2-node
network (both user nodes become ready simultaneously once the source is
emitted) with the comparator `x < y` on internal IDs, the code emits user
node `1` before user node `0`, i.e. it returns `[1, 0]`, although the
minimum of the two ready nodes under the comparator is node `0`.  The raw
`nodeHeap.Pop` the loop calls removes the *last* element of the heap slice
instead of going through `heap.Pop`. -/
theorem claim_C6 :
    TopSort (FlowNetwork.newFlowNetwork 2) intLt 100 = .ok [1, 0] ∧
    [1, 0] ≠ [0, 1] := by
  constructor <;> decide

/-- **C7.** Evaluation of `AddEdge` at the failing input: on a fresh 5-node
network, `AddEdge(0, 1, -1)` returns *no* error even though the capacity is
negative — the method validates node IDs and pseudonode usage but never
checks `capacity ≥ 0`, contradicting the repository's own `TestAddEdge`
(which expects an error for `{0, 1, -1}`). -/
theorem claim_C7 :
    isOkE ((FlowNetwork.newFlowNetwork 5).AddEdge 0 1 (-1)) = true := by
  decide

/-- **C8** (counterexample).  The claim states `Circulation.AddEdge` errors
whenever `demand < 0`; but on a fresh 2-node circulation,
`AddEdge(0, 1, 3, -5)` — valid non-pseudonode endpoints, demand `-5 < 0` —
returns no error, because the method only rejects `capacity < demand`. -/
theorem claim_C8_counterexample :
    isOkE ((Circulation.newCirculation 2).AddEdge 0 1 3 (-5)) = true := by
  decide

/-- **C8** (amended).  `Circulation.AddEdge` returns an error whenever
`capacity < demand`; there is no separate `demand ≥ 0` validation, so a
negative demand is rejected only when the capacity is below it. -/
theorem claim_C8 (c : Circulation) (fromID toID cap demand : Int)
    (h : cap < demand) :
    isOkE (c.AddEdge fromID toID cap demand) = false := by
  unfold Circulation.AddEdge
  by_cases h1 : fromID = Source ∨ fromID = Sink ∨ toID = Source ∨ toID = Sink
  · rw [if_pos h1]; rfl
  · rw [if_neg h1, if_pos h]; rfl

/-- Witness for **C8**: `AddEdge(0, 1, 3, 7)` with `3 < 7` is rejected. -/
theorem claim_C8_witness :
    (3 : Int) < 7 ∧
      isOkE ((Circulation.newCirculation 2).AddEdge 0 1 3 7) = false :=
  ⟨by decide, claim_C8 (Circulation.newCirculation 2) 0 1 3 7 (by decide)⟩

/-- **C10.**  On any circulation whose auxiliary demand nodes have not been
allocated (`nodeSource = 0`) and whose pseudonode modes are both automatic,
`SetNodeDemand(id, 0)` with a valid `id` returns no error and treats user
node 0 as both auxiliary nodes: it records zero-capacity edges `(0, id)` and
`(id, 0)` in the underlying network and deletes the auto-wired
`Source → id`, `id → Sink`, `Source → 0` and `0 → Sink` edges. -/
theorem claim_C10 (c : Circulation) (id : Int)
    (hns : c.nodeSource = 0) (hnk : c.nodeSink = 0)
    (hms : c.fn.manualSource = false) (hmk : c.fn.manualSink = false)
    (h0 : 0 ≤ id) (h1 : id < c.fn.numNodes) :
    ∃ c', c.SetNodeDemand id 0 = .ok c' ∧
      mhas c'.fn.capacity (2, id + 2) = true ∧
      mget c'.fn.capacity (2, id + 2) = 0 ∧
      mhas c'.fn.capacity (id + 2, 2) = true ∧
      mget c'.fn.capacity (id + 2, 2) = 0 ∧
      mhas c'.fn.capacity (sourceID, id + 2) = false ∧
      mhas c'.fn.capacity (id + 2, sinkID) = false ∧
      mhas c'.fn.capacity (sourceID, 2) = false ∧
      mhas c'.fn.capacity (2, sinkID) = false := by
  have hidS : id ≠ Source := by simp only [Source]; omega
  have hidK : id ≠ Sink := by simp only [Sink]; omega
  have hnn : (0 : Int) < c.fn.numNodes := by omega
  have e1 := AddEdge_auto_ok c.fn 0 id 0 le_rfl hnn h0 h1 hms hmk
  set g1 : FlowNetwork :=
    { c.fn with
      capacity := mdel (mdel (mset c.fn.capacity (0 + 2, id + 2) 0) (sourceID, id + 2))
        (0 + 2, sinkID)
      adjacencyList := adjDel (adjDel (adjAdd c.fn.adjacencyList (0 + 2) (id + 2))
        sourceID (id + 2)) (0 + 2) sinkID } with hg1
  have e2 := AddEdge_auto_ok g1 id 0 0 h0 (by simp [hg1]; omega) le_rfl
    (by simp [hg1]; omega) (by simp [hg1, hms]) (by simp [hg1, hmk])
  set g2 : FlowNetwork :=
    { g1 with
      capacity := mdel (mdel (mset g1.capacity (id + 2, 0 + 2) 0) (sourceID, 0 + 2))
        (id + 2, sinkID)
      adjacencyList := adjDel (adjDel (adjAdd g1.adjacencyList (id + 2) (0 + 2))
        sourceID (0 + 2)) (id + 2) sinkID } with hg2
  refine ⟨{ c with fn := g2, nodeDemand := nset c.nodeDemand (id + 2) 0 }, ?_, ?_⟩
  · unfold Circulation.SetNodeDemand
    rw [if_neg (by push_neg; exact ⟨hidS, hidK⟩)]
    rw [if_neg (by push_neg; constructor <;> omega)]
    simp only [Circulation.addEdgeIgnoringError, hns, hnk, ne_eq,
      eq_self_iff_true, not_true, false_and, if_false, if_true,
      lt_self_iff_false, gt_iff_lt, e1, e2]
  · have hC : g2.capacity = mdel (mdel (mset
        (mdel (mdel (mset c.fn.capacity (2, id + 2) 0) (sourceID, id + 2)) (2, sinkID))
        (id + 2, 2) 0) (sourceID, 2)) (id + 2, sinkID) := by
      rw [hg2, hg1]
      rfl
    rw [hC]
    simp only [mhas_mdel, mhas_mset, mget_mdel, mget_mset, sourceID, sinkID,
      Prod.mk.injEq]
    refine ⟨?_, ?_, ?_, ?_, ?_, ?_, ?_, ?_⟩ <;>
      · split_ifs <;> first | rfl | omega

/-- Witness for **C10** on a fresh 4-node circulation with `id = 1`. -/
theorem claim_C10_witness :
    ∃ c', (Circulation.newCirculation 4).SetNodeDemand 1 0 = .ok c' ∧
      mhas c'.fn.capacity (2, 1 + 2) = true ∧
      mget c'.fn.capacity (2, 1 + 2) = 0 ∧
      mhas c'.fn.capacity (1 + 2, 2) = true ∧
      mget c'.fn.capacity (1 + 2, 2) = 0 ∧
      mhas c'.fn.capacity (sourceID, 1 + 2) = false ∧
      mhas c'.fn.capacity (1 + 2, sinkID) = false ∧
      mhas c'.fn.capacity (sourceID, 2) = false ∧
      mhas c'.fn.capacity (2, sinkID) = false :=
  claim_C10 (Circulation.newCirculation 4) 1 (by decide) (by decide) (by decide)
    (by decide) (by decide) (by decide)

/-- **C9.** Scenario 5: starting from `NewFlowNetwork(3)`, the first
`AddEdge(Source, 0, 5)` removes every auto-wired source edge — capacities
`(Source,1)` and `(Source,2)` read 0 and are genuinely absent — sets
`Capacity(Source,0) = 5`, and leaves all three auto-wired sink edges at
`INT64_MAX`. -/
theorem claim_C9 :
    scenario5Net.Capacity Source 0 = 5 ∧
    scenario5Net.Capacity Source 1 = 0 ∧
    scenario5Net.Capacity Source 2 = 0 ∧
    mhas scenario5Net.capacity (sourceID, FlowNetwork.internalID 1) = false ∧
    mhas scenario5Net.capacity (sourceID, FlowNetwork.internalID 2) = false ∧
    scenario5Net.Capacity 0 Sink = maxInt64 ∧
    scenario5Net.Capacity 1 Sink = maxInt64 ∧
    scenario5Net.Capacity 2 Sink = maxInt64 := by
  refine ⟨?_, ?_, ?_, ?_, ?_, ?_, ?_, ?_⟩ <;> decide

end Flownet
